import Mathlib

/-!
# Verification of the dynamicgo JSON scanning core

Shallow embedding of the position-based JSON scanner (blank skipping, token
peeking, string/number/object skipping, primitive decoding, quoting) over
byte buffers modelled as lists of byte values (naturals below 256).  Every
scanning function returns either a non-negative end offset or a negative
error code, mirroring the Go source.  Go loops over raw pointers are
rendered as structurally recursive functions over the unconsumed suffix of
the buffer, with wrappers translating between absolute offsets and
suffixes.
-/

namespace DynJson

/-! ## Error codes and value tags

The error and value-tag numerals live in the collaborating types package;
only their distinctness matters here, the values follow that enumeration. -/

def ERR_EOF : Int := 1

def ERR_INVALID_CHAR : Int := 2

def ERR_INVALID_NUMBER_FMT : Int := 6

def V_NULL : Int := 2

def V_TRUE : Int := 3

def V_FALSE : Int := 4

def V_ARRAY : Int := 5

def V_OBJECT : Int := 6

def V_STRING : Int := 7

def V_DOUBLE : Int := 8

def V_INTEGER : Int := 9

/-! ## Byte classes -/

def isDigit (c : Nat) : Bool := decide (48 ≤ c) && decide (c ≤ 57)

def isNumberChars (c : Nat) : Bool :=
  isDigit c || decide (c = 43) || decide (c = 45) || decide (c = 101) ||
    decide (c = 69) || decide (c = 46)

/-- Whitespace bytes: space, tab, newline, carriage return. -/
def isSpace (c : Nat) : Bool :=
  decide (c = 32) || decide (c = 9) || decide (c = 10) || decide (c = 13)

def bytesNull : List Nat := [110, 117, 108, 108]

def bytesTrue : List Nat := [116, 114, 117, 101]

def bytesFalse : List Nat := [102, 97, 108, 115, 101]

/-! ## Blank skipping

Modelled from the spec: the repository's SkipBlank (not among the given
source files) skips leading whitespace (space, tab, newline, carriage
return) starting at pos and returns the post-whitespace position, or the
negative EOF code when the input ends while skipping whitespace. -/

def skipBlankLoop : List Nat → Nat → Int
  | [], _ => -ERR_EOF
  | c :: rest, n => if isSpace c then skipBlankLoop rest (n + 1) else (n : Int)

/-- Modelled from the spec: SkipBlank, whitespace skipping with EOF
reporting (the function itself is not among the given source files). -/
def SkipBlank (src : List Nat) (pos : Nat) : Int :=
  let k := skipBlankLoop (src.drop pos) 0
  if k < 0 then k else (pos : Int) + k

/-! ## Fixed-literal decoders -/

def decodeNull (src : List Nat) (pos : Nat) : Int :=
  if src.length < pos + 4 then -ERR_EOF
  else if (src.drop pos).take 4 = bytesNull then ((pos + 4 : Nat) : Int)
  else -ERR_INVALID_CHAR

def decodeTrue (src : List Nat) (pos : Nat) : Int :=
  if src.length < pos + 4 then -ERR_EOF
  else if (src.drop pos).take 4 = bytesTrue then ((pos + 4 : Nat) : Int)
  else -ERR_INVALID_CHAR

def decodeFalse (src : List Nat) (pos : Nat) : Int :=
  if src.length < pos + 5 then -ERR_EOF
  else if (src.drop pos).take 5 = bytesFalse then ((pos + 5 : Nat) : Int)
  else -ERR_INVALID_CHAR

/-! ## Numeric decoding -/

inductive NumErr
  | ok
  | rangeErr
  | syntaxErr
deriving DecidableEq, Repr

/-- Value of a digit run, most significant digit first. -/
def digitsVal (ds : List Nat) : Int :=
  ds.foldl (fun a c => a * 10 + ((c : Int) - 48)) 0

/-- Models strconv.ParseInt(s, 10, 64) of the Go standard library: optional
sign, then a non-empty digit run; out-of-range values yield the clamped
bound together with the range error. -/
def parseInt64 (s : List Nat) : NumErr × Int :=
  let neg : Bool := decide (s.headD 0 = 45)
  let ds := if s.headD 0 = 45 ∨ s.headD 0 = 43 then s.tail else s
  if ds = [] ∨ ¬ (ds.all isDigit = true) then (.syntaxErr, 0)
  else
    let v : Int := if neg then -digitsVal ds else digitsVal ds
    if v < -(2 ^ 63) then (.rangeErr, -(2 ^ 63))
    else if 2 ^ 63 - 1 < v then (.rangeErr, 2 ^ 63 - 1)
    else (.ok, v)

def decodeInt64 (src : List Nat) (pos : Nat) : Int × Int × NumErr :=
  if src.length ≤ pos then (-ERR_EOF, 0, .ok)
  else
    let sp := if src.getD pos 0 = 45 then pos + 1 else pos
    if src.length ≤ sp then (-ERR_EOF, 0, .ok)
    else
      let ret := sp + ((src.drop sp).takeWhile isDigit).length
      if ret < src.length ∧
          (src.getD ret 0 = 46 ∨ src.getD ret 0 = 101 ∨ src.getD ret 0 = 69) then
        (-ERR_INVALID_NUMBER_FMT, 0, .ok)
      else
        let pr := parseInt64 ((src.drop pos).take (ret - pos))
        if pr.1 = .rangeErr then ((ret : Int), 0, .rangeErr)
        else if pr.1 = .syntaxErr then (-ERR_INVALID_CHAR, 0, .syntaxErr)
        else ((ret : Int), pr.2, .ok)

/-- Models strconv.ParseFloat of the Go standard library on the decimal
alphabet reachable from decodeFloat64 (digits, signs, dot, exponent
marker): full-string decimal syntax, value taken as the exact rational of
the literal (binary rounding and the float range are abstracted away; no
claim here depends on them). -/
def parseFloat64 (s : List Nat) : NumErr × Rat :=
  let p : Bool × List Nat :=
    match s with
    | 43 :: rest => (false, rest)
    | 45 :: rest => (true, rest)
    | _ => (false, s)
  let ip := p.2.takeWhile isDigit
  let s2 := p.2.drop ip.length
  let core : Option (Rat × List Nat) :=
    match s2 with
    | 46 :: s3 =>
      let fp := s3.takeWhile isDigit
      if ip = [] ∧ fp = [] then none
      else some ((digitsVal ip : Rat) + (digitsVal fp : Rat) / 10 ^ fp.length,
        s3.drop fp.length)
    | _ => if ip = [] then none else some ((digitsVal ip : Rat), s2)
  match core with
  | none => (.syntaxErr, 0)
  | some (mant, tail) =>
    let signed : Rat := if p.1 then -mant else mant
    match tail with
    | [] => (.ok, signed)
    | c :: t1 =>
      if c = 101 ∨ c = 69 then
        let q : Bool × List Nat :=
          match t1 with
          | 43 :: rest => (false, rest)
          | 45 :: rest => (true, rest)
          | _ => (false, t1)
        if q.2 = [] ∨ ¬ (q.2.all isDigit = true) then (.syntaxErr, 0)
        else
          let e : Int := if q.1 then -digitsVal q.2 else digitsVal q.2
          (.ok, signed * (10 : Rat) ^ e)
      else (.syntaxErr, 0)

def decodeFloat64 (src : List Nat) (pos : Nat) : Int × Rat × NumErr :=
  if src.length ≤ pos then (-ERR_EOF, 0, .ok)
  else
    let sp := if src.getD pos 0 = 45 then pos + 1 else pos
    if sp = src.length then (-ERR_EOF, 0, .ok)
    else
      let ret := sp + ((src.drop sp).takeWhile isNumberChars).length
      let pr := parseFloat64 ((src.drop pos).take (ret - pos))
      if pr.1 = .rangeErr then ((ret : Int), 0, .rangeErr)
      else if pr.1 = .syntaxErr then (-ERR_INVALID_CHAR, 0, .syntaxErr)
      else ((ret : Int), pr.2, .ok)

/-! ## Token classification -/

inductive TokenState
  | Invalid
  | Null
  | True
  | False
  | Number
  | String
  | Obj
  | Arr
  | EndObj
  | EndArr
  | Comma
  | Colon
deriving DecidableEq, Repr

def Peek (src : List Nat) (pos : Nat) : Int × TokenState :=
  let p := SkipBlank src pos
  if p < 0 then (p, .Invalid)
  else
    let c := src.getD p.toNat 0
    if c = 123 then (p, .Obj)
    else if c = 91 then (p, .Arr)
    else if c = 44 then (p, .Comma)
    else if c = 58 then (p, .Colon)
    else if c = 93 then (p, .EndArr)
    else if c = 125 then (p, .EndObj)
    else if c = 110 then (p, .Null)
    else if c = 34 then (p, .String)
    else if c = 116 then (p, .True)
    else if c = 102 then (p, .False)
    else if c = 45 ∨ c = 43 ∨ (48 ≤ c ∧ c ≤ 57) then (p, .Number)
    else (-ERR_INVALID_CHAR, .Invalid)

/-! ## Structural skippers -/

/-- The scan loop of skipNumber: n counts bytes consumed after the optional
leading minus sign; prev is the previously processed byte. -/
def skipNumLoop : List Nat → Nat → Bool → Bool → Bool → Bool → Nat → Int
  | [], n, _, _, _, need, _ => if need then -ERR_EOF else (n : Int)
  | c :: rest, n, pointer, exponent, lastd, need, prev =>
    if isDigit c then skipNumLoop rest (n + 1) pointer exponent true false c
    else if need then -ERR_INVALID_CHAR
    else if c = 46 then
      if lastd = false ∨ pointer = true ∨ n = 0 then -ERR_INVALID_CHAR
      else skipNumLoop rest (n + 1) true exponent false true c
    else if c = 101 ∨ c = 69 then
      if lastd = false ∨ exponent = true then -ERR_INVALID_CHAR
      else if rest = [] then -ERR_EOF
      else skipNumLoop rest (n + 1) pointer true false false c
    else if c = 45 ∨ c = 43 then
      if prev ≠ 101 ∧ prev ≠ 69 then -ERR_INVALID_CHAR
      else skipNumLoop rest (n + 1) pointer exponent false true c
    else if need then -ERR_EOF else (n : Int)

def skipNumber (src : List Nat) (pos : Nat) : Int :=
  if src.length ≤ pos then -ERR_EOF
  else
    let ss := if src.getD pos 0 = 45 then pos + 1 else pos
    let res := skipNumLoop (src.drop ss) 0 false false false true 0
    if res < 0 then res else (ss : Int) + res

/-- The scan loop of skipString: n is the count of bytes consumed past the
opening quote, ep records the relative offset of the first backslash. -/
def skipStringLoop : List Nat → Nat → Option Nat → Nat × Option Nat
  | [], n, ep => (n, ep)
  | c :: rest, n, ep =>
    if c = 92 then
      match rest with
      | [] => (n + 2, some (ep.getD n))
      | _ :: rest2 => skipStringLoop rest2 (n + 2) (some (ep.getD n))
    else if c = 34 then (n + 1, ep)
    else skipStringLoop rest (n + 1) ep

def skipString (src : List Nat) (pos : Nat) : Int × Int :=
  if src.length ≤ pos + 1 then (-ERR_EOF, -1)
  else if src.getD pos 0 ≠ 34 then (-ERR_INVALID_CHAR, -1)
  else
    let r := skipStringLoop (src.drop (pos + 1)) 0 none
    if src.length < pos + 1 + r.1 then (-ERR_EOF, -1)
    else (((pos + 1 + r.1 : Nat) : Int),
      match r.2 with
      | none => -1
      | some k => ((pos + 1 + k : Nat) : Int))

/-- The scan loop of skipPair: n counts bytes consumed past the opening
delimiter, nb is the nesting counter, iq the in-quote flag.  Returns the
final count together with the final counter (0 exactly when the matching
close delimiter was reached). -/
def skipPairLoop (l r : Nat) : List Nat → Nat → Nat → Bool → Nat × Nat
  | [], n, nb, _ => (n, nb)
  | c :: rest, n, nb, iq =>
    if c = 92 then
      match rest with
      | [] => (n + 2, nb)
      | _ :: rest2 => skipPairLoop l r rest2 (n + 2) nb iq
    else if c = 34 then skipPairLoop l r rest (n + 1) nb (!iq)
    else if c = l then skipPairLoop l r rest (n + 1) (if iq then nb else nb + 1) iq
    else if c = r then
      if iq then skipPairLoop l r rest (n + 1) nb iq
      else if nb = 1 then (n + 1, 0)
      else skipPairLoop l r rest (n + 1) (nb - 1) iq
    else skipPairLoop l r rest (n + 1) nb iq

def skipPair (src : List Nat) (pos : Nat) (l r : Nat) : Int :=
  if src.length ≤ pos + 1 then -ERR_EOF
  else if src.getD pos 0 ≠ l then -ERR_INVALID_CHAR
  else
    let sc := skipPairLoop l r (src.drop (pos + 1)) 0 1 false
    if sc.2 ≠ 0 then -ERR_INVALID_CHAR
    else ((pos + 1 + sc.1 : Nat) : Int)

/-! ## Value dispatchers -/

structure JsonState where
  Vt : Int
  Iv : Int := 0
  Dv : Rat := 0
  Ep : Int := 0
deriving DecidableEq, Repr

def DecodeValue (src : List Nat) (pos : Nat) : Int × JsonState :=
  let p := SkipBlank src pos
  if p < 0 then (p, { Vt := p })
  else
    let pn := p.toNat
    let c := src.getD pn 0
    if c = 110 then
      let ret := decodeNull src pn
      if ret < 0 then (ret, { Vt := ret }) else (ret, { Vt := V_NULL })
    else if c = 34 then
      let sr := skipString src pn
      if sr.1 < 0 then (sr.1, { Vt := sr.1 })
      else (sr.1, { Vt := V_STRING, Iv := (pn : Int) + 1, Ep := sr.2 })
    else if c = 123 then (((pn + 1 : Nat) : Int), { Vt := V_OBJECT })
    else if c = 91 then (((pn + 1 : Nat) : Int), { Vt := V_ARRAY })
    else if c = 116 then
      let ret := decodeTrue src pn
      if ret < 0 then (ret, { Vt := ret }) else (ret, { Vt := V_TRUE })
    else if c = 102 then
      let ret := decodeFalse src pn
      if ret < 0 then (ret, { Vt := ret }) else (ret, { Vt := V_FALSE })
    else if c = 45 ∨ c = 43 ∨ (48 ≤ c ∧ c ≤ 57) then
      let ir := decodeInt64 src pn
      if 0 ≤ ir.1 then (ir.1, { Vt := V_INTEGER, Iv := ir.2.1, Ep := (pn : Int) })
      else if ir.1 ≠ -ERR_INVALID_NUMBER_FMT then (ir.1, { Vt := ir.1 })
      else
        let fr := decodeFloat64 src pn
        if 0 ≤ fr.1 then (fr.1, { Vt := V_DOUBLE, Dv := fr.2.1, Ep := (pn : Int) })
        else (fr.1, { Vt := fr.1 })
    else (-ERR_INVALID_CHAR, { Vt := -ERR_INVALID_CHAR })

def SkipValue (src : List Nat) (pos : Nat) : Int × Int :=
  let p := SkipBlank src pos
  if p < 0 then (p, -1)
  else
    let pn := p.toNat
    let c := src.getD pn 0
    let ret : Int :=
      if c = 110 then decodeNull src pn
      else if c = 34 then (skipString src pn).1
      else if c = 123 then skipPair src pn 123 125
      else if c = 91 then skipPair src pn 91 93
      else if c = 116 then decodeTrue src pn
      else if c = 102 then decodeFalse src pn
      else if c = 45 ∨ c = 43 ∨ (48 ≤ c ∧ c ≤ 57) then skipNumber src pn
      else -ERR_INVALID_CHAR
    (ret, p)

/-! ## String quoting -/

def hexDigitByte (d : Nat) : Nat := if d < 10 then 48 + d else 87 + d

/-- JSON escaping of a single byte, the contract of the accelerated
escaping primitive (spec 4.5). -/
def escapeByte (c : Nat) : List Nat :=
  if c = 34 then [92, 34]
  else if c = 92 then [92, 92]
  else if c = 8 then [92, 98]
  else if c = 12 then [92, 102]
  else if c = 10 then [92, 110]
  else if c = 13 then [92, 114]
  else if c = 9 then [92, 116]
  else if c < 32 then [92, 117, 48, 48, hexDigitByte (c / 16), hexDigitByte (c % 16)]
  else [c]

def escapeJson (val : List Nat) : List Nat := (val.map escapeByte).flatten

/-- quote from src/json/api_amd64.go: append an opening quote, append a
second quote when the input is empty, run the escaping loop over the
remaining input (the loop body, an accelerated primitive behind the
grow-and-retry protocol, is modelled from the spec 4.5 contract as
appending the escaped input; the loop runs only when the input is
non-empty), then append the closing quote.  The Go source has no early
return in the empty-input branch. -/
def quote (buf val : List Nat) : List Nat :=
  let b1 := buf ++ [34]
  let b2 := if val.length = 0 then b1 ++ [34] else b1
  let b3 := if val.length > 0 then b2 ++ escapeJson val else b2
  b3 ++ [34]

/-! ## Independent scan predicates (for stating error claims) -/

/-- Whether a string scan over the bytes after the opening quote reaches an
unescaped closing quote (a backslash unconditionally consumes the following
byte). -/
def closesString : List Nat → Bool
  | [] => false
  | c :: rest =>
    if c = 92 then
      match rest with
      | [] => false
      | _ :: rest2 => closesString rest2
    else if c = 34 then true
    else closesString rest

/-- Whether the quote-aware nesting counter of a pair scan, started at nb
with in-quote flag iq, ever reaches 0 before the buffer ends. -/
def pairCloses (l r : Nat) : List Nat → Nat → Bool → Bool
  | [], _, _ => false
  | c :: rest, nb, iq =>
    if c = 92 then
      match rest with
      | [] => false
      | _ :: rest2 => pairCloses l r rest2 nb iq
    else if c = 34 then pairCloses l r rest nb (!iq)
    else if c = l then pairCloses l r rest (if iq then nb else nb + 1) iq
    else if c = r then
      if iq then pairCloses l r rest nb iq
      else if nb = 1 then true
      else pairCloses l r rest (nb - 1) iq
    else pairCloses l r rest nb iq

/-! ## JSON textual grammar

A specification-side grammar of serialized JSON values, used to state the
soundness of SkipValue.  It is the standard JSON value grammar over bytes,
generalized in two harmless directions (integer parts may carry leading
zeroes, and any byte may follow a backslash inside a string), so that it
covers every syntactically valid JSON text. -/

def Blank (l : List Nat) : Prop := ∀ c ∈ l, isSpace c = true

/-- The input directly after a value either ends or continues with a token
boundary byte: whitespace, comma, or a closing delimiter. -/
def Terminated (rest : List Nat) : Prop :=
  rest = [] ∨ (isSpace (rest.headD 0) = true ∨ rest.headD 0 = 44 ∨
    rest.headD 0 = 93 ∨ rest.headD 0 = 125)

def Digits1 (l : List Nat) : Prop := l ≠ [] ∧ ∀ c ∈ l, isDigit c = true

def SignOpt (l : List Nat) : Prop := l = [] ∨ l = [45]

def ESignOpt (l : List Nat) : Prop := l = [] ∨ l = [45] ∨ l = [43]

def FracOpt (l : List Nat) : Prop := l = [] ∨ ∃ ds, Digits1 ds ∧ l = 46 :: ds

def ExpOpt (l : List Nat) : Prop :=
  l = [] ∨ ∃ e sg ds, (e = 101 ∨ e = 69) ∧ ESignOpt sg ∧ Digits1 ds ∧ l = e :: (sg ++ ds)

/-- A serialized JSON number token. -/
def NumTok (l : List Nat) : Prop :=
  ∃ sg ip f ex, SignOpt sg ∧ Digits1 ip ∧ FracOpt f ∧ ExpOpt ex ∧ l = sg ++ ip ++ f ++ ex

/-- The byte content of a string literal between its quotes: ordinary bytes
(neither quote nor backslash) and two-byte escape sequences. -/
inductive StrBody : List Nat → Prop
  | nil : StrBody []
  | chr {c : Nat} {t : List Nat} : c ≠ 34 → c ≠ 92 → StrBody t → StrBody (c :: t)
  | esc {e : Nat} {t : List Nat} : StrBody t → StrBody (92 :: e :: t)

/-- Grammar sorts: a single value, the elements of an array, the members of
an object. -/
inductive JKind
  | val
  | elems
  | members

/-- Serialized JSON texts, by sort. -/
inductive J : JKind → List Nat → Prop
  | jnull : J .val bytesNull
  | jtrue : J .val bytesTrue
  | jfalse : J .val bytesFalse
  | jstr {b : List Nat} : StrBody b → J .val (34 :: (b ++ [34]))
  | jnum {l : List Nat} : NumTok l → J .val l
  | jobjE {w : List Nat} : Blank w → J .val (123 :: (w ++ [125]))
  | jobj {m : List Nat} : J .members m → J .val (123 :: (m ++ [125]))
  | jarrE {w : List Nat} : Blank w → J .val (91 :: (w ++ [93]))
  | jarr {m : List Nat} : J .elems m → J .val (91 :: (m ++ [93]))
  | jelem1 {w1 v w2 : List Nat} : Blank w1 → J .val v → Blank w2 →
      J .elems (w1 ++ v ++ w2)
  | jelemS {w1 v w2 t : List Nat} : Blank w1 → J .val v → Blank w2 → J .elems t →
      J .elems (w1 ++ v ++ w2 ++ 44 :: t)
  | jmem1 {w1 k w2 w3 v w4 : List Nat} : Blank w1 → StrBody k → Blank w2 →
      Blank w3 → J .val v → Blank w4 →
      J .members (w1 ++ (34 :: (k ++ [34])) ++ w2 ++ 58 :: (w3 ++ v ++ w4))
  | jmemS {w1 k w2 w3 v w4 t : List Nat} : Blank w1 → StrBody k → Blank w2 →
      Blank w3 → J .val v → Blank w4 → J .members t →
      J .members (w1 ++ (34 :: (k ++ [34])) ++ w2 ++ 58 :: (w3 ++ v ++ w4 ++ 44 :: t))

/-- Balanced content for the quote-aware pair scanner with delimiters l and
r: ordinary bytes, complete string literals, and nested balanced pairs. -/
inductive Items (l r : Nat) : List Nat → Prop
  | nil : Items l r []
  | plain {c : Nat} {t : List Nat} : c ≠ 34 → c ≠ 92 → c ≠ l → c ≠ r →
      Items l r t → Items l r (c :: t)
  | str {b t : List Nat} : StrBody b → Items l r t → Items l r (34 :: (b ++ 34 :: t))
  | pair {m t : List Nat} : Items l r m → Items l r t → Items l r (l :: (m ++ r :: t))

/-- The token classification table, written from the spec. -/
def peekClass (c : Nat) : TokenState :=
  if c = 123 then .Obj
  else if c = 91 then .Arr
  else if c = 34 then .String
  else if (48 ≤ c ∧ c ≤ 57) ∨ c = 43 ∨ c = 45 then .Number
  else if c = 110 then .Null
  else if c = 116 then .True
  else if c = 102 then .False
  else if c = 44 then .Comma
  else if c = 58 then .Colon
  else if c = 93 then .EndArr
  else if c = 125 then .EndObj
  else .Invalid

/-- The two delimiter instantiations used by SkipValue. -/
def GoodPair (l r : Nat) : Prop := (l = 123 ∧ r = 125) ∨ (l = 91 ∧ r = 93)

/-! ## List plumbing -/

theorem pos_lt_of_drop {src t : List Nat} {pos c : Nat} (h : src.drop pos = c :: t) :
    pos < src.length := by
  by_contra hge
  rw [List.drop_eq_nil_of_le (by omega)] at h
  exact List.noConfusion h

theorem getD_eq_headD_drop (src : List Nat) (pos : Nat) :
    src.getD pos 0 = (src.drop pos).headD 0 := by
  simp [List.headD_eq_head?, List.getD_eq_getElem?_getD, List.head?_drop]

theorem getD_of_drop {src t : List Nat} {pos c : Nat} (h : src.drop pos = c :: t) :
    src.getD pos 0 = c := by
  rw [getD_eq_headD_drop, h]; rfl

theorem drop_succ_of_drop {src t : List Nat} {pos c : Nat} (h : src.drop pos = c :: t) :
    src.drop (pos + 1) = t := by
  have h1 : (src.drop pos).tail = src.drop (pos + 1) := List.tail_drop src pos
  rw [← h1, h]
  rfl

theorem length_of_drop {src X : List Nat} {pos : Nat} (h : src.drop pos = X)
    (hne : X ≠ []) : src.length = pos + X.length := by
  have hlt : pos < src.length := by
    cases hX : X with
    | nil => exact absurd hX hne
    | cons c t => exact pos_lt_of_drop (hX ▸ h)
  have := List.length_drop pos src
  rw [h] at this
  omega

theorem takeWhile_append_head {p : Nat → Bool} {ds rest : List Nat}
    (h : ∀ c ∈ ds, p c = true) (h2 : rest = [] ∨ p (rest.headD 0) = false) :
    (ds ++ rest).takeWhile p = ds := by
  induction ds with
  | nil =>
    cases rest with
    | nil => simp
    | cons r t =>
      rcases h2 with h2 | h2
      · exact absurd h2 (by simp)
      · simp only [List.headD_cons] at h2
        simp [List.takeWhile_cons, h2]
  | cons d ds ih =>
    have hd : p d = true := h d (by simp)
    simp [List.takeWhile_cons, hd, ih (fun c hc => h c (by simp [hc]))]

theorem take_of_drop_append {src X rest : List Nat} {pos : Nat}
    (h : src.drop pos = X ++ rest) : (src.drop pos).take X.length = X := by
  rw [h, List.take_left]

/-! ## One-step unfolding lemmas for the scan loops -/

theorem skipStringLoop_cons (c : Nat) (rest : List Nat) (n : Nat) (ep : Option Nat) :
    skipStringLoop (c :: rest) n ep =
      if c = 92 then
        match rest with
        | [] => (n + 2, some (ep.getD n))
        | _ :: rest2 => skipStringLoop rest2 (n + 2) (some (ep.getD n))
      else if c = 34 then (n + 1, ep)
      else skipStringLoop rest (n + 1) ep := by
  rw [skipStringLoop.eq_def]

theorem skipStringLoop_quote (rest : List Nat) (n : Nat) (ep : Option Nat) :
    skipStringLoop (34 :: rest) n ep = (n + 1, ep) := by
  rw [skipStringLoop_cons]; norm_num

theorem skipStringLoop_esc (d : Nat) (r2 : List Nat) (n : Nat) (ep : Option Nat) :
    skipStringLoop (92 :: d :: r2) n ep = skipStringLoop r2 (n + 2) (some (ep.getD n)) := by
  rw [skipStringLoop_cons]; norm_num

theorem skipStringLoop_esc_end (n : Nat) (ep : Option Nat) :
    skipStringLoop [92] n ep = (n + 2, some (ep.getD n)) := by
  rw [skipStringLoop_cons]; norm_num

theorem skipStringLoop_chr {c : Nat} (hs : c ≠ 92) (hq : c ≠ 34) (rest : List Nat)
    (n : Nat) (ep : Option Nat) :
    skipStringLoop (c :: rest) n ep = skipStringLoop rest (n + 1) ep := by
  rw [skipStringLoop_cons, if_neg hs, if_neg hq]

theorem skipPairLoop_cons (l r c : Nat) (rest : List Nat) (n nb : Nat) (iq : Bool) :
    skipPairLoop l r (c :: rest) n nb iq =
      if c = 92 then
        match rest with
        | [] => (n + 2, nb)
        | _ :: rest2 => skipPairLoop l r rest2 (n + 2) nb iq
      else if c = 34 then skipPairLoop l r rest (n + 1) nb (!iq)
      else if c = l then skipPairLoop l r rest (n + 1) (if iq then nb else nb + 1) iq
      else if c = r then
        if iq then skipPairLoop l r rest (n + 1) nb iq
        else if nb = 1 then (n + 1, 0)
        else skipPairLoop l r rest (n + 1) (nb - 1) iq
      else skipPairLoop l r rest (n + 1) nb iq := by
  rw [skipPairLoop.eq_def]

theorem skipNumLoop_cons (c : Nat) (rest : List Nat) (n : Nat)
    (pointer exponent lastd need : Bool) (prev : Nat) :
    skipNumLoop (c :: rest) n pointer exponent lastd need prev =
      (if isDigit c then skipNumLoop rest (n + 1) pointer exponent true false c
      else if need then -ERR_INVALID_CHAR
      else if c = 46 then
        if lastd = false ∨ pointer = true ∨ n = 0 then -ERR_INVALID_CHAR
        else skipNumLoop rest (n + 1) true exponent false true c
      else if c = 101 ∨ c = 69 then
        if lastd = false ∨ exponent = true then -ERR_INVALID_CHAR
        else if rest = [] then -ERR_EOF
        else skipNumLoop rest (n + 1) pointer true false false c
      else if c = 45 ∨ c = 43 then
        if prev ≠ 101 ∧ prev ≠ 69 then -ERR_INVALID_CHAR
        else skipNumLoop rest (n + 1) pointer exponent false true c
      else if need then -ERR_EOF else (n : Int)) := by
  rw [skipNumLoop.eq_def]

theorem closesString_cons (c : Nat) (rest : List Nat) :
    closesString (c :: rest) =
      if c = 92 then
        match rest with
        | [] => false
        | _ :: rest2 => closesString rest2
      else if c = 34 then true
      else closesString rest := by
  rw [closesString.eq_def]

theorem pairCloses_cons (l r c : Nat) (rest : List Nat) (nb : Nat) (iq : Bool) :
    pairCloses l r (c :: rest) nb iq =
      if c = 92 then
        match rest with
        | [] => false
        | _ :: rest2 => pairCloses l r rest2 nb iq
      else if c = 34 then pairCloses l r rest nb (!iq)
      else if c = l then pairCloses l r rest (if iq then nb else nb + 1) iq
      else if c = r then
        if iq then pairCloses l r rest nb iq
        else if nb = 1 then true
        else pairCloses l r rest (nb - 1) iq
      else pairCloses l r rest nb iq := by
  rw [pairCloses.eq_def]

/-! ## Blank skipping lemmas -/

theorem skipBlankLoop_blankRun {ws : List Nat} (hws : Blank ws) {c : Nat}
    (hc : isSpace c = false) (t : List Nat) (n : Nat) :
    skipBlankLoop (ws ++ c :: t) n = ((n + ws.length : Nat) : Int) := by
  induction ws generalizing n with
  | nil => simp [skipBlankLoop, hc]
  | cons w ws ih =>
    have hw : isSpace w = true := hws w (by simp)
    have hws2 : Blank ws := fun x hx => hws x (by simp [hx])
    simp only [List.cons_append, skipBlankLoop, hw, if_true, List.append_eq]
    rw [ih hws2]
    simp only [List.length_cons]
    omega

theorem skipBlank_pos {src ws t : List Nat} {pos c : Nat}
    (h : src.drop pos = ws ++ c :: t) (hws : Blank ws) (hc : isSpace c = false) :
    SkipBlank src pos = ((pos + ws.length : Nat) : Int) := by
  simp only [SkipBlank]
  rw [h, skipBlankLoop_blankRun hws hc]
  have h0 : ¬(((0 + ws.length : Nat) : Int) < 0) := by omega
  rw [if_neg h0]
  omega

theorem skipBlankLoop_blank {l : List Nat} (h : Blank l) (n : Nat) :
    skipBlankLoop l n = -ERR_EOF := by
  induction l generalizing n with
  | nil => rfl
  | cons c t ih =>
    have hc : isSpace c = true := h c (by simp)
    simp [skipBlankLoop, hc, ih (fun x hx => h x (by simp [hx]))]

theorem skipBlank_eof {src : List Nat} {pos : Nat} (h : Blank (src.drop pos)) :
    SkipBlank src pos = -ERR_EOF := by
  simp only [SkipBlank]
  rw [skipBlankLoop_blank h]
  norm_num [ERR_EOF]

/-! ## Literal decoder lemmas -/

theorem decodeNull_token {src rest : List Nat} {pos : Nat}
    (h : src.drop pos = bytesNull ++ rest) :
    decodeNull src pos = ((pos + 4 : Nat) : Int) := by
  have hlen : src.length = pos + (bytesNull ++ rest).length :=
    length_of_drop h (by simp [bytesNull])
  have htake : (src.drop pos).take 4 = bytesNull := take_of_drop_append h
  unfold decodeNull
  rw [if_neg (by simp [bytesNull] at hlen ⊢; omega), htake, if_pos rfl]

theorem decodeTrue_token {src rest : List Nat} {pos : Nat}
    (h : src.drop pos = bytesTrue ++ rest) :
    decodeTrue src pos = ((pos + 4 : Nat) : Int) := by
  have hlen : src.length = pos + (bytesTrue ++ rest).length :=
    length_of_drop h (by simp [bytesTrue])
  have htake : (src.drop pos).take 4 = bytesTrue := take_of_drop_append h
  unfold decodeTrue
  rw [if_neg (by simp [bytesTrue] at hlen ⊢; omega), htake, if_pos rfl]

theorem decodeFalse_token {src rest : List Nat} {pos : Nat}
    (h : src.drop pos = bytesFalse ++ rest) :
    decodeFalse src pos = ((pos + 5 : Nat) : Int) := by
  have hlen : src.length = pos + (bytesFalse ++ rest).length :=
    length_of_drop h (by simp [bytesFalse])
  have htake : (src.drop pos).take 5 = bytesFalse := take_of_drop_append h
  unfold decodeFalse
  rw [if_neg (by simp [bytesFalse] at hlen ⊢; omega), htake, if_pos rfl]

/-! ## String scan lemmas -/

theorem skipStringLoop_strBody {b : List Nat} (hb : StrBody b) :
    ∀ (rest : List Nat) (n : Nat) (ep : Option Nat),
    ∃ ep2, skipStringLoop (b ++ rest) n ep = skipStringLoop rest (n + b.length) ep2 := by
  induction hb with
  | nil => exact fun rest n ep => ⟨ep, by simp⟩
  | @chr c t hq hs _ ih =>
    intro rest n ep
    obtain ⟨ep2, h2⟩ := ih rest (n + 1) ep
    refine ⟨ep2, ?_⟩
    rw [List.cons_append, skipStringLoop_chr hs hq, h2, List.length_cons,
      show n + (t.length + 1) = n + 1 + t.length from by omega]
  | @esc e t _ ih =>
    intro rest n ep
    obtain ⟨ep2, h2⟩ := ih rest (n + 2) (some (ep.getD n))
    refine ⟨ep2, ?_⟩
    rw [List.cons_append, List.cons_append, skipStringLoop_esc, h2, List.length_cons,
      List.length_cons, show n + (t.length + 1 + 1) = n + 2 + t.length from by omega]

theorem skipString_token {src b rest : List Nat} {pos : Nat}
    (h : src.drop pos = 34 :: (b ++ 34 :: rest)) (hb : StrBody b) :
    (skipString src pos).1 = ((pos + (b.length + 2) : Nat) : Int) := by
  have hlen : src.length = pos + (34 :: (b ++ 34 :: rest)).length :=
    length_of_drop h (by simp)
  simp only [List.length_cons, List.length_append] at hlen
  have hd : src.getD pos 0 = 34 := getD_of_drop h
  have hdrop : src.drop (pos + 1) = b ++ 34 :: rest := drop_succ_of_drop h
  obtain ⟨ep2, hloop⟩ := skipStringLoop_strBody hb (34 :: rest) 0 none
  simp only [skipString, hdrop, hloop, skipStringLoop_quote]
  rw [if_neg (by omega), if_neg (fun hne => hne hd), if_neg (by simp; omega)]
  simp only []
  omega

theorem skipStringLoop_noclose_aux :
    ∀ (len : Nat) (rem : List Nat), rem.length ≤ len → closesString rem = false →
    ∀ (n : Nat) (ep : Option Nat),
    (skipStringLoop rem n ep).1 = n + rem.length ∨
      (skipStringLoop rem n ep).1 = n + rem.length + 1 := by
  intro len
  induction len with
  | zero =>
    intro rem hlen _ n ep
    have hnil : rem = [] := List.eq_nil_of_length_eq_zero (by omega)
    subst hnil
    left; simp [skipStringLoop]
  | succ k ih =>
    intro rem hlen h n ep
    cases rem with
    | nil => left; simp [skipStringLoop]
    | cons c rest =>
      by_cases hc : c = 92
      · subst hc
        cases rest with
        | nil =>
          right
          rw [skipStringLoop_esc_end]
          simp
        | cons d r2 =>
          have h2 : closesString r2 = false := by
            rw [closesString_cons] at h
            simpa using h
          rw [skipStringLoop_esc]
          rcases ih r2 (by simp at hlen ⊢; omega) h2 (n + 2) (some (ep.getD n)) with h3 | h3
          · left; rw [h3]; simp; omega
          · right; rw [h3]; simp; omega
      · by_cases hq : c = 34
        · rw [closesString_cons, if_neg hc, if_pos hq] at h
          exact absurd h (by simp)
        · have h2 : closesString rest = false := by
            rw [closesString_cons, if_neg hc, if_neg hq] at h
            exact h
          rw [skipStringLoop_chr hc hq]
          rcases ih rest (by simp at hlen; omega) h2 (n + 1) ep with h3 | h3
          · left; rw [h3]; simp; omega
          · right; rw [h3]; simp; omega

theorem skipStringLoop_noclose {rem : List Nat} (h : closesString rem = false)
    (n : Nat) (ep : Option Nat) :
    (skipStringLoop rem n ep).1 = n + rem.length ∨
      (skipStringLoop rem n ep).1 = n + rem.length + 1 :=
  skipStringLoop_noclose_aux rem.length rem le_rfl h n ep

theorem skipString_eof {src : List Nat} {pos : Nat} (h : src.length ≤ pos + 1) :
    skipString src pos = (-ERR_EOF, -1) := by
  simp only [skipString, if_pos h]

theorem skipString_badchar {src : List Nat} {pos : Nat} (h1 : pos + 1 < src.length)
    (h2 : src.getD pos 0 ≠ 34) : skipString src pos = (-ERR_INVALID_CHAR, -1) := by
  simp only [skipString]
  rw [if_neg (by omega), if_pos h2]

theorem skipString_unterminated {src : List Nat} {pos : Nat} (h1 : pos + 1 < src.length)
    (h2 : src.getD pos 0 = 34) (h3 : closesString (src.drop (pos + 1)) = false) :
    (skipString src pos).1 = -ERR_EOF ∨ (skipString src pos).1 = (src.length : Int) := by
  have hlen : (src.drop (pos + 1)).length = src.length - (pos + 1) := by
    simp [List.length_drop]
  have hres := skipStringLoop_noclose h3 0 none
  simp only [skipString]
  rw [if_neg (by omega), if_neg (fun hne => hne h2)]
  rcases hres with hr | hr
  · right
    rw [if_neg (by omega)]
    simp only []
    omega
  · left
    rw [if_pos (by omega)]

/-! ## Number scan lemmas -/

theorem isDigit_eq {c : Nat} : isDigit c = true ↔ 48 ≤ c ∧ c ≤ 57 := by
  simp [isDigit]

theorem terminated_head {c : Nat} {t : List Nat} (h : Terminated (c :: t)) :
    isDigit c = false ∧ c ≠ 46 ∧ c ≠ 101 ∧ c ≠ 69 ∧ c ≠ 45 ∧ c ≠ 43 := by
  rcases h with h | h
  · exact absurd h (by simp)
  · simp only [List.headD_cons] at h
    rcases h with h | h | h | h
    · have h4 : c = 32 ∨ c = 9 ∨ c = 10 ∨ c = 13 := by
        simp [isSpace] at h
        tauto
      rcases h4 with rfl | rfl | rfl | rfl <;> exact ⟨by decide, by decide, by decide,
        by decide, by decide, by decide⟩
    · subst h
      exact ⟨by decide, by decide, by decide, by decide, by decide, by decide⟩
    · subst h
      exact ⟨by decide, by decide, by decide, by decide, by decide, by decide⟩
    · subst h
      exact ⟨by decide, by decide, by decide, by decide, by decide, by decide⟩

theorem skipNumLoop_digits :
    ∀ (ds : List Nat) (a : Nat), isDigit a = true → (∀ c ∈ ds, isDigit c = true) →
    ∀ (rest : List Nat) (n : Nat) (p x ld nd : Bool) (prev : Nat), ∃ d,
    skipNumLoop ((a :: ds) ++ rest) n p x ld nd prev =
      skipNumLoop rest (n + ds.length + 1) p x true false d := by
  intro ds
  induction ds with
  | nil =>
    intro a ha _ rest n p x ld nd prev
    refine ⟨a, ?_⟩
    rw [List.cons_append, List.nil_append, skipNumLoop_cons]
    simp [ha]
  | cons b ds ih =>
    intro a ha hall rest n p x ld nd prev
    obtain ⟨d, hrec⟩ := ih b (hall b (by simp)) (fun c hc => hall c (by simp [hc]))
      rest (n + 1) p x true false a
    refine ⟨d, ?_⟩
    rw [List.cons_append, skipNumLoop_cons]
    simp only [ha, if_pos]
    simp only [List.length_cons]
    rw [show n + (ds.length + 1) + 1 = n + 1 + ds.length + 1 from by omega]
    exact hrec

theorem skipNumLoop_dot {rest : List Nat} {n : Nat} {x : Bool} {prev : Nat} (hn : n ≠ 0) :
    skipNumLoop (46 :: rest) n false x true false prev =
      skipNumLoop rest (n + 1) true x false true 46 := by
  rw [skipNumLoop_cons]
  norm_num [isDigit, hn]

theorem skipNumLoop_exp {e : Nat} (he : e = 101 ∨ e = 69) {rest : List Nat} {n : Nat}
    {p : Bool} {prev : Nat} (hne : rest ≠ []) :
    skipNumLoop (e :: rest) n p false true false prev =
      skipNumLoop rest (n + 1) p true false false e := by
  rcases he with rfl | rfl <;> (rw [skipNumLoop_cons]; norm_num [isDigit, hne])

theorem skipNumLoop_esign {s e : Nat} (hs : s = 45 ∨ s = 43) (he : e = 101 ∨ e = 69)
    {rest : List Nat} {n : Nat} {p x : Bool} :
    skipNumLoop (s :: rest) n p x false false e =
      skipNumLoop rest (n + 1) p x false true s := by
  rcases hs with rfl | rfl <;> rcases he with rfl | rfl <;>
    (rw [skipNumLoop_cons]; norm_num [isDigit])

theorem skipNumLoop_term {rest : List Nat} (h : Terminated rest) (n : Nat)
    (p x ld : Bool) (prev : Nat) :
    skipNumLoop rest n p x ld false prev = (n : Int) := by
  cases rest with
  | nil => simp [skipNumLoop]
  | cons c t =>
    obtain ⟨hd, h46, h101, h69, h45, h43⟩ := terminated_head h
    rw [skipNumLoop_cons]
    simp [hd, h46, h101, h69, h45, h43]

theorem skipNumLoop_numTail {ip f ex rest : List Nat}
    (hip : Digits1 ip) (hf : FracOpt f) (hex : ExpOpt ex) (hrest : Terminated rest) :
    skipNumLoop (ip ++ f ++ ex ++ rest) 0 false false false true 0 =
      (((ip ++ f ++ ex).length : Nat) : Int) := by
  obtain ⟨hne, hdig⟩ := hip
  obtain ⟨a, ds, rfl⟩ : ∃ a ds, ip = a :: ds := by
    cases ip with
    | nil => exact absurd rfl hne
    | cons a ds => exact ⟨a, ds, rfl⟩
  simp only [List.append_assoc]
  obtain ⟨d1, h1⟩ := skipNumLoop_digits ds a (hdig a (by simp))
    (fun c hc => hdig c (by simp [hc])) (f ++ (ex ++ rest)) 0 false false false true 0
  rw [h1]
  -- after the integer digit run the state is (pointer false, exponent false,
  -- last-is-digit true, next-need-digit false)
  have hexp : ∀ (n2 : Nat) (p2 : Bool) (d2 : Nat),
      skipNumLoop (ex ++ rest) n2 p2 false true false d2 = ((n2 + ex.length : Nat) : Int) := by
    intro n2 p2 d2
    rcases hex with rfl | ⟨e, sg, ds3, he, hsg, hds3, rfl⟩
    · rw [List.nil_append, skipNumLoop_term hrest]
      simp
    · obtain ⟨hne3, hdig3⟩ := hds3
      obtain ⟨a3, ds3t, rfl⟩ : ∃ a3 t3, ds3 = a3 :: t3 := by
        cases ds3 with
        | nil => exact absurd rfl hne3
        | cons a3 t3 => exact ⟨a3, t3, rfl⟩
      have hnonempty : (sg ++ a3 :: ds3t) ++ rest ≠ [] := by
        rcases hsg with rfl | rfl | rfl <;> simp
      rw [List.cons_append, skipNumLoop_exp he hnonempty]
      rcases hsg with rfl | rfl | rfl
      · -- no exponent sign
        rw [List.nil_append, List.cons_append]
        obtain ⟨d3, h3⟩ := skipNumLoop_digits ds3t a3 (hdig3 a3 (by simp))
          (fun c hc => hdig3 c (by simp [hc])) rest (n2 + 1) p2 true false false e
        rw [List.cons_append] at h3
        rw [h3, skipNumLoop_term hrest]
        simp only [List.length_append, List.length_cons, List.length_nil]
        omega
      · -- exponent sign: minus
        rw [show ([45] ++ a3 :: ds3t) ++ rest = 45 :: ((a3 :: ds3t) ++ rest) from by simp,
          skipNumLoop_esign (Or.inl rfl) he]
        obtain ⟨d3, h3⟩ := skipNumLoop_digits ds3t a3 (hdig3 a3 (by simp))
          (fun c hc => hdig3 c (by simp [hc])) rest (n2 + 1 + 1) p2 true false true 45
        rw [h3, skipNumLoop_term hrest]
        simp only [List.length_append, List.length_cons, List.length_nil]
        omega
      · -- exponent sign: plus
        rw [show ([43] ++ a3 :: ds3t) ++ rest = 43 :: ((a3 :: ds3t) ++ rest) from by simp,
          skipNumLoop_esign (Or.inr rfl) he]
        obtain ⟨d3, h3⟩ := skipNumLoop_digits ds3t a3 (hdig3 a3 (by simp))
          (fun c hc => hdig3 c (by simp [hc])) rest (n2 + 1 + 1) p2 true false true 43
        rw [h3, skipNumLoop_term hrest]
        simp only [List.length_append, List.length_cons, List.length_nil]
        omega
  rcases hf with rfl | ⟨ds2, hds2, rfl⟩
  · rw [List.nil_append, hexp]
    simp only [List.length_append, List.length_cons, List.length_nil]
    omega
  · obtain ⟨hne2, hdig2⟩ := hds2
    obtain ⟨a2, ds2t, rfl⟩ : ∃ a2 t2, ds2 = a2 :: t2 := by
      cases ds2 with
      | nil => exact absurd rfl hne2
      | cons a2 t2 => exact ⟨a2, t2, rfl⟩
    rw [List.cons_append, skipNumLoop_dot (by omega)]
    obtain ⟨d2, h2⟩ := skipNumLoop_digits ds2t a2 (hdig2 a2 (by simp))
      (fun c hc => hdig2 c (by simp [hc])) (ex ++ rest) (0 + ds.length + 1 + 1) true false
      false true 46
    rw [h2, hexp]
    simp only [List.length_append, List.length_cons, List.length_nil]
    omega

theorem skipNumber_numTok {src v rest : List Nat} {pos : Nat} (hv : NumTok v)
    (hrest : Terminated rest) (h : src.drop pos = v ++ rest) :
    skipNumber src pos = ((pos + v.length : Nat) : Int) := by
  obtain ⟨sg, ip, f, ex, hsg, hip, hf, hex, rfl⟩ := hv
  have hloop := skipNumLoop_numTail hip hf hex hrest
  rcases hsg with rfl | rfl
  · simp only [List.nil_append] at h ⊢
    obtain ⟨a, ds, hipE⟩ : ∃ a ds, ip = a :: ds := by
      obtain ⟨hne, _⟩ := hip
      cases ip with
      | nil => exact absurd rfl hne
      | cons a ds => exact ⟨a, ds, rfl⟩
    have hcons : src.drop pos = a :: (ds ++ f ++ ex ++ rest) := by
      rw [h, hipE]
      simp [List.append_assoc]
    have hda : isDigit a = true := hip.2 a (by simp [hipE])
    have ha45 : a ≠ 45 := by
      have := isDigit_eq.mp hda
      omega
    have hgd : src.getD pos 0 = a := getD_of_drop hcons
    simp only [skipNumber]
    rw [if_neg (by have := pos_lt_of_drop hcons; omega)]
    rw [hgd, if_neg ha45, h]
    rw [show (ip ++ f ++ ex) ++ rest = ip ++ f ++ ex ++ rest from by simp [List.append_assoc]]
    rw [hloop]
    rw [if_neg (by omega)]
    simp only [List.length_append, List.length_cons, List.length_nil]
    omega
  · have hcons : src.drop pos = 45 :: (ip ++ f ++ ex ++ rest) := by
      rw [h]
      simp [List.append_assoc]
    have hgd : src.getD pos 0 = 45 := getD_of_drop hcons
    have hdrop : src.drop (pos + 1) = ip ++ f ++ ex ++ rest := drop_succ_of_drop hcons
    simp only [skipNumber]
    rw [if_neg (by have := pos_lt_of_drop hcons; omega)]
    rw [hgd, if_pos rfl, hdrop, hloop]
    rw [if_neg (by omega)]
    simp only [List.cons_append, List.nil_append, List.length_append, List.length_cons,
      List.length_nil]
    omega

/-! ## Pair scan lemmas -/

theorem skipPairLoop_esc2 (l r d : Nat) (r2 : List Nat) (n nb : Nat) (iq : Bool) :
    skipPairLoop l r (92 :: d :: r2) n nb iq = skipPairLoop l r r2 (n + 2) nb iq := by
  rw [skipPairLoop_cons]
  norm_num

theorem skipPairLoop_esc_end (l r : Nat) (n nb : Nat) (iq : Bool) :
    skipPairLoop l r [92] n nb iq = (n + 2, nb) := by
  rw [skipPairLoop_cons]
  norm_num

theorem skipPairLoop_quote (l r : Nat) (rest : List Nat) (n nb : Nat) (iq : Bool) :
    skipPairLoop l r (34 :: rest) n nb iq = skipPairLoop l r rest (n + 1) nb (!iq) := by
  rw [skipPairLoop_cons]
  norm_num

theorem skipPairLoop_inquote_chr {l r c : Nat} (hq : c ≠ 34) (hs : c ≠ 92)
    (rest : List Nat) (n nb : Nat) :
    skipPairLoop l r (c :: rest) n nb true = skipPairLoop l r rest (n + 1) nb true := by
  rw [skipPairLoop_cons, if_neg hs, if_neg hq]
  split_ifs <;> simp_all

theorem skipPairLoop_plain {l r c : Nat} (hq : c ≠ 34) (hs : c ≠ 92) (hl : c ≠ l)
    (hr : c ≠ r) (rest : List Nat) (n nb : Nat) (iq : Bool) :
    skipPairLoop l r (c :: rest) n nb iq = skipPairLoop l r rest (n + 1) nb iq := by
  rw [skipPairLoop_cons]
  simp [hq, hs, hl, hr]

theorem skipPairLoop_open {l r : Nat} (hl92 : l ≠ 92) (hl34 : l ≠ 34)
    (rest : List Nat) (n nb : Nat) :
    skipPairLoop l r (l :: rest) n nb false = skipPairLoop l r rest (n + 1) (nb + 1) false := by
  rw [skipPairLoop_cons]
  simp [hl92, hl34]

theorem skipPairLoop_close_dec {l r : Nat} (hr92 : r ≠ 92) (hr34 : r ≠ 34) (hrl : r ≠ l)
    {nb : Nat} (hnb : nb ≠ 1) (rest : List Nat) (n : Nat) :
    skipPairLoop l r (r :: rest) n nb false = skipPairLoop l r rest (n + 1) (nb - 1) false := by
  rw [skipPairLoop_cons]
  simp [hr92, hr34, hrl, hnb]

theorem skipPairLoop_close_hit {l r : Nat} (hr92 : r ≠ 92) (hr34 : r ≠ 34) (hrl : r ≠ l)
    (rest : List Nat) (n : Nat) :
    skipPairLoop l r (r :: rest) n 1 false = (n + 1, 0) := by
  rw [skipPairLoop_cons]
  simp [hr92, hr34, hrl]

theorem strBody_pairLoop {l r : Nat} {b : List Nat} (hb : StrBody b) :
    ∀ (rest : List Nat) (n nb : Nat),
    skipPairLoop l r (b ++ rest) n nb true = skipPairLoop l r rest (n + b.length) nb true := by
  induction hb with
  | nil => intro rest n nb; simp
  | @chr c t hq hs _ ih =>
    intro rest n nb
    rw [List.cons_append, skipPairLoop_inquote_chr hq hs, List.length_cons,
      show n + (t.length + 1) = n + 1 + t.length from by omega]
    exact ih rest (n + 1) nb
  | @esc e t _ ih =>
    intro rest n nb
    rw [List.cons_append, List.cons_append, skipPairLoop_esc2, List.length_cons,
      List.length_cons, show n + (t.length + 1 + 1) = n + 2 + t.length from by omega]
    exact ih rest (n + 2) nb

theorem items_pairLoop {l r : Nat} (hl34 : l ≠ 34) (hl92 : l ≠ 92) (hr34 : r ≠ 34)
    (hr92 : r ≠ 92) (hlr : l ≠ r) {m : List Nat} (hm : Items l r m) :
    ∀ (rest : List Nat) (n nb : Nat), 1 ≤ nb →
    skipPairLoop l r (m ++ rest) n nb false = skipPairLoop l r rest (n + m.length) nb false := by
  induction hm with
  | nil => intro rest n nb _; simp
  | @plain c t h34 h92 hcl hcr _ ih =>
    intro rest n nb hnb
    rw [List.cons_append, skipPairLoop_plain h34 h92 hcl hcr, List.length_cons,
      show n + (t.length + 1) = n + 1 + t.length from by omega]
    exact ih rest (n + 1) nb hnb
  | @str b t hb _ ih =>
    intro rest n nb hnb
    have hshape : (34 :: (b ++ 34 :: t)) ++ rest = 34 :: (b ++ (34 :: (t ++ rest))) := by
      simp
    rw [hshape, skipPairLoop_quote, Bool.not_false, strBody_pairLoop hb,
      skipPairLoop_quote, Bool.not_true, List.length_cons, List.length_append,
      List.length_cons, show n + (b.length + (t.length + 1) + 1) =
        n + 1 + b.length + 1 + t.length from by omega]
    exact ih rest (n + 1 + b.length + 1) nb hnb
  | @pair m2 t _ _ ihm iht =>
    intro rest n nb hnb
    have hshape : (l :: (m2 ++ r :: t)) ++ rest = l :: (m2 ++ (r :: (t ++ rest))) := by
      simp
    rw [hshape, skipPairLoop_open hl92 hl34, ihm (r :: (t ++ rest)) (n + 1) (nb + 1) (by omega),
      skipPairLoop_close_dec hr92 hr34 (Ne.symm hlr) (by omega),
      show nb + 1 - 1 = nb from by omega, List.length_cons, List.length_append,
      List.length_cons, show n + (m2.length + (t.length + 1) + 1) =
        n + 1 + m2.length + 1 + t.length from by omega]
    exact iht rest (n + 1 + m2.length + 1) nb hnb

theorem skipPair_token {src m rest : List Nat} {pos l r : Nat}
    (hl34 : l ≠ 34) (hl92 : l ≠ 92) (hr34 : r ≠ 34) (hr92 : r ≠ 92) (hlr : l ≠ r)
    (h : src.drop pos = l :: (m ++ r :: rest)) (hm : Items l r m) :
    skipPair src pos l r = ((pos + (m.length + 2) : Nat) : Int) := by
  have hlen : src.length = pos + (l :: (m ++ r :: rest)).length := length_of_drop h (by simp)
  simp only [List.length_cons, List.length_append] at hlen
  have hgd : src.getD pos 0 = l := getD_of_drop h
  have hdrop : src.drop (pos + 1) = m ++ r :: rest := drop_succ_of_drop h
  simp only [skipPair]
  rw [if_neg (by omega), if_neg (fun hne => hne hgd), hdrop,
    items_pairLoop hl34 hl92 hr34 hr92 hlr hm (r :: rest) 0 1 (by omega),
    skipPairLoop_close_hit hr92 hr34 (Ne.symm hlr)]
  norm_num
  omega

theorem pairCloses_cons_ne {l r : Nat} :
    ∀ (len : Nat) (rem : List Nat), rem.length ≤ len →
    ∀ (nb : Nat) (iq : Bool), 1 ≤ nb → pairCloses l r rem nb iq = false →
    ∀ (n : Nat), 1 ≤ (skipPairLoop l r rem n nb iq).2 := by
  intro len
  induction len with
  | zero =>
    intro rem hlen nb iq hnb _ n
    have hnil : rem = [] := List.eq_nil_of_length_eq_zero (by omega)
    subst hnil
    simpa [skipPairLoop] using hnb
  | succ k ih =>
    intro rem hlen nb iq hnb h n
    cases rem with
    | nil => simpa [skipPairLoop] using hnb
    | cons c rest =>
      rw [skipPairLoop_cons]
      rw [pairCloses_cons] at h
      by_cases h92 : c = 92
      · subst h92
        simp only [if_pos rfl] at h ⊢
        cases rest with
        | nil => simpa using hnb
        | cons d r2 =>
          exact ih r2 (by simp at hlen; omega) nb iq hnb h (n + 2)
      · by_cases h34 : c = 34
        · subst h34
          rw [if_neg (by norm_num)] at h ⊢
          rw [if_pos rfl] at h ⊢
          exact ih rest (by simp at hlen; omega) nb (!iq) hnb h (n + 1)
        · rw [if_neg h92, if_neg h34] at h ⊢
          by_cases hcl : c = l
          · rw [if_pos hcl] at h ⊢
            have : 1 ≤ (if iq then nb else nb + 1) := by
              cases iq
              · simp
              · simpa using hnb
            exact ih rest (by simp at hlen; omega) _ iq this h (n + 1)
          · rw [if_neg hcl] at h ⊢
            by_cases hcr : c = r
            · rw [if_pos hcr] at h ⊢
              cases iq with
              | true =>
                simp only [if_pos rfl] at h ⊢
                exact ih rest (by simp at hlen; omega) nb true hnb h (n + 1)
              | false =>
                simp only [Bool.false_eq_true, if_false] at h ⊢
                by_cases h1 : nb = 1
                · rw [if_pos h1] at h
                  exact absurd h (by simp)
                · rw [if_neg h1] at h ⊢
                  exact ih rest (by simp at hlen; omega) (nb - 1) false (by omega) h (n + 1)
            · rw [if_neg hcr] at h ⊢
              exact ih rest (by simp at hlen; omega) nb iq hnb h (n + 1)

theorem skipPair_noclose {src : List Nat} {pos l r : Nat} (h1 : pos + 1 < src.length)
    (h2 : src.getD pos 0 = l) (h3 : pairCloses l r (src.drop (pos + 1)) 1 false = false) :
    skipPair src pos l r = -ERR_INVALID_CHAR := by
  have hnb := pairCloses_cons_ne (src.drop (pos + 1)).length (src.drop (pos + 1)) le_rfl
    1 false (by omega) h3 0
  simp only [skipPair]
  rw [if_neg (by omega), if_neg (fun hne => hne h2), if_pos (by omega)]

/-! ## Building balanced content from the grammar -/

theorem items_append {l r : Nat} {a b : List Nat} (ha : Items l r a) (hb : Items l r b) :
    Items l r (a ++ b) := by
  induction ha with
  | nil => simpa
  | @plain c t h34 h92 hcl hcr _ ih =>
    rw [List.cons_append]
    exact .plain h34 h92 hcl hcr ih
  | @str s t hs _ ih =>
    have hshape : (34 :: (s ++ 34 :: t)) ++ b = 34 :: (s ++ 34 :: (t ++ b)) := by simp
    rw [hshape]
    exact .str hs ih
  | @pair m t hm _ _ iht =>
    have hshape : (l :: (m ++ r :: t)) ++ b = l :: (m ++ r :: (t ++ b)) := by simp
    rw [hshape]
    exact .pair hm iht

theorem items_of_forall {l r : Nat} :
    ∀ (w : List Nat), (∀ c ∈ w, c ≠ 34 ∧ c ≠ 92 ∧ c ≠ l ∧ c ≠ r) → Items l r w := by
  intro w
  induction w with
  | nil => exact fun _ => .nil
  | cons c t ih =>
    intro h
    obtain ⟨h1, h2, h3, h4⟩ := h c (by simp)
    exact .plain h1 h2 h3 h4 (ih fun d hd => h d (by simp [hd]))

theorem blank_items {l r : Nat} (hlr : GoodPair l r) {w : List Nat} (hw : Blank w) :
    Items l r w := by
  refine items_of_forall w fun c hc => ?_
  have hs := hw c hc
  have h4 : c = 32 ∨ c = 9 ∨ c = 10 ∨ c = 13 := by
    simp [isSpace] at hs
    tauto
  rcases hlr with ⟨rfl, rfl⟩ | ⟨rfl, rfl⟩ <;> rcases h4 with rfl | rfl | rfl | rfl <;>
    exact ⟨by omega, by omega, by omega, by omega⟩

theorem numTok_bytes {v : List Nat} (hv : NumTok v) :
    ∀ c ∈ v, isDigit c = true ∨ c = 45 ∨ c = 43 ∨ c = 46 ∨ c = 101 ∨ c = 69 := by
  obtain ⟨sg, ip, f, ex, hsg, hip, hf, hex, rfl⟩ := hv
  intro c hc
  simp only [List.append_assoc, List.mem_append] at hc
  rcases hc with hc | hc | hc | hc
  · rcases hsg with rfl | rfl
    · simp at hc
    · simp at hc
      subst hc
      tauto
  · exact Or.inl (hip.2 c hc)
  · rcases hf with rfl | ⟨ds, hds, rfl⟩
    · simp at hc
    · rcases List.mem_cons.mp hc with rfl | hc
      · tauto
      · exact Or.inl (hds.2 c hc)
  · rcases hex with rfl | ⟨e, sg2, ds, he, hsg2, hds, rfl⟩
    · simp at hc
    · rcases List.mem_cons.mp hc with rfl | hc
      · tauto
      · rcases List.mem_append.mp hc with hc | hc
        · rcases hsg2 with rfl | rfl | rfl
          · simp at hc
          · simp at hc
            subst hc
            tauto
          · simp at hc
            subst hc
            tauto
        · exact Or.inl (hds.2 c hc)

theorem num_items {l r : Nat} (hlr : GoodPair l r) {v : List Nat} (hv : NumTok v) :
    Items l r v := by
  refine items_of_forall v fun c hc => ?_
  rcases numTok_bytes hv c hc with h | h | h | h | h | h
  · have := isDigit_eq.mp h
    rcases hlr with ⟨rfl, rfl⟩ | ⟨rfl, rfl⟩ <;> exact ⟨by omega, by omega, by omega, by omega⟩
  all_goals subst h
  all_goals rcases hlr with ⟨rfl, rfl⟩ | ⟨rfl, rfl⟩ <;>
    exact ⟨by omega, by omega, by omega, by omega⟩

theorem lit_items {l r : Nat} (hlr : GoodPair l r) {w : List Nat}
    (hw : ∀ c ∈ w, 97 ≤ c ∧ c ≤ 117) : Items l r w := by
  refine items_of_forall w fun c hc => ?_
  have := hw c hc
  rcases hlr with ⟨rfl, rfl⟩ | ⟨rfl, rfl⟩ <;> exact ⟨by omega, by omega, by omega, by omega⟩

theorem j_items {k : JKind} {w : List Nat} (h : J k w) :
    ∀ (l r : Nat), GoodPair l r → Items l r w := by
  induction h with
  | jnull =>
    intro l r hlr
    refine lit_items hlr fun c hc => ?_
    simp [bytesNull] at hc
    rcases hc with rfl | rfl | rfl <;> omega
  | jtrue =>
    intro l r hlr
    refine lit_items hlr fun c hc => ?_
    simp [bytesTrue] at hc
    rcases hc with rfl | rfl | rfl | rfl <;> omega
  | jfalse =>
    intro l r hlr
    refine lit_items hlr fun c hc => ?_
    simp [bytesFalse] at hc
    rcases hc with rfl | rfl | rfl | rfl | rfl <;> omega
  | @jstr b hb =>
    intro l r _
    exact .str hb .nil
  | jnum hn => exact fun l r hlr => num_items hlr hn
  | @jobjE w hw =>
    intro l r hlr
    rcases hlr with ⟨rfl, rfl⟩ | ⟨rfl, rfl⟩
    · exact .pair (blank_items (Or.inl ⟨rfl, rfl⟩) hw) .nil
    · refine .plain (by omega) (by omega) (by omega) (by omega) ?_
      exact items_append (blank_items (Or.inr ⟨rfl, rfl⟩) hw)
        (.plain (by decide) (by decide) (by decide) (by decide) .nil)
  | @jobj m _ ihm =>
    intro l r hlr
    rcases hlr with ⟨rfl, rfl⟩ | ⟨rfl, rfl⟩
    · exact .pair (ihm 123 125 (Or.inl ⟨rfl, rfl⟩)) .nil
    · refine .plain (by omega) (by omega) (by omega) (by omega) ?_
      exact items_append (ihm 91 93 (Or.inr ⟨rfl, rfl⟩))
        (.plain (by decide) (by decide) (by decide) (by decide) .nil)
  | @jarrE w hw =>
    intro l r hlr
    rcases hlr with ⟨rfl, rfl⟩ | ⟨rfl, rfl⟩
    · refine .plain (by omega) (by omega) (by omega) (by omega) ?_
      exact items_append (blank_items (Or.inl ⟨rfl, rfl⟩) hw)
        (.plain (by decide) (by decide) (by decide) (by decide) .nil)
    · exact .pair (blank_items (Or.inr ⟨rfl, rfl⟩) hw) .nil
  | @jarr m _ ihm =>
    intro l r hlr
    rcases hlr with ⟨rfl, rfl⟩ | ⟨rfl, rfl⟩
    · refine .plain (by omega) (by omega) (by omega) (by omega) ?_
      exact items_append (ihm 123 125 (Or.inl ⟨rfl, rfl⟩))
        (.plain (by decide) (by decide) (by decide) (by decide) .nil)
    · exact .pair (ihm 91 93 (Or.inr ⟨rfl, rfl⟩)) .nil
  | @jelem1 w1 v w2 hw1 _ hw2 ihv =>
    intro l r hlr
    exact items_append (items_append (blank_items hlr hw1) (ihv l r hlr))
      (blank_items hlr hw2)
  | @jelemS w1 v w2 t hw1 _ hw2 _ ihv iht =>
    intro l r hlr
    refine items_append (items_append (items_append (blank_items hlr hw1) (ihv l r hlr))
      (blank_items hlr hw2)) ?_
    refine .plain ?_ ?_ ?_ ?_ (iht l r hlr) <;>
      rcases hlr with ⟨rfl, rfl⟩ | ⟨rfl, rfl⟩ <;> omega
  | @jmem1 w1 kk w2 w3 v w4 hw1 hk hw2 hw3 _ hw4 ihv =>
    intro l r hlr
    refine items_append (items_append (items_append (blank_items hlr hw1)
      (.str hk .nil)) (blank_items hlr hw2)) ?_
    refine .plain ?_ ?_ ?_ ?_ (items_append (items_append (blank_items hlr hw3)
      (ihv l r hlr)) (blank_items hlr hw4)) <;>
      rcases hlr with ⟨rfl, rfl⟩ | ⟨rfl, rfl⟩ <;> omega
  | @jmemS w1 kk w2 w3 v w4 t hw1 hk hw2 hw3 _ hw4 _ ihv iht =>
    intro l r hlr
    refine items_append (items_append (items_append (blank_items hlr hw1)
      (.str hk .nil)) (blank_items hlr hw2)) ?_
    refine .plain ?_ ?_ ?_ ?_ ?_ <;>
      try (rcases hlr with ⟨rfl, rfl⟩ | ⟨rfl, rfl⟩ <;> omega)
    refine items_append (items_append (items_append (blank_items hlr hw3)
      (ihv l r hlr)) (blank_items hlr hw4)) ?_
    refine .plain ?_ ?_ ?_ ?_ (iht l r hlr) <;>
      rcases hlr with ⟨rfl, rfl⟩ | ⟨rfl, rfl⟩ <;> omega

/-! ## Soundness of the value dispatcher -/

theorem numTok_head {v : List Nat} (hv : NumTok v) :
    ∃ c tl, v = c :: tl ∧ (c = 45 ∨ (48 ≤ c ∧ c ≤ 57)) := by
  obtain ⟨sg, ip, f, ex, hsg, hip, hf, hex, rfl⟩ := hv
  rcases hsg with rfl | rfl
  · obtain ⟨a, ds, hipE⟩ : ∃ a ds, ip = a :: ds := by
      obtain ⟨hne, _⟩ := hip
      cases ip with
      | nil => exact absurd rfl hne
      | cons a ds => exact ⟨a, ds, rfl⟩
    refine ⟨a, ds ++ f ++ ex, by simp [hipE, List.append_assoc], ?_⟩
    exact Or.inr (isDigit_eq.mp (hip.2 a (by simp [hipE])))
  · exact ⟨45, ip ++ f ++ ex, by simp [List.append_assoc], Or.inl rfl⟩

/-- Evaluation of the leading-byte dispatch of SkipValue on a serialized
value followed by a token boundary: it consumes exactly the value. -/
theorem jval_skip {src v rest : List Nat} {s : Nat} (hv : J .val v)
    (hrest : Terminated rest) (h : src.drop s = v ++ rest) :
    ∃ c tl, v = c :: tl ∧ isSpace c = false ∧
      (if c = 110 then decodeNull src s
       else if c = 34 then (skipString src s).1
       else if c = 123 then skipPair src s 123 125
       else if c = 91 then skipPair src s 91 93
       else if c = 116 then decodeTrue src s
       else if c = 102 then decodeFalse src s
       else if c = 45 ∨ c = 43 ∨ (48 ≤ c ∧ c ≤ 57) then skipNumber src s
       else -ERR_INVALID_CHAR) = ((s + v.length : Nat) : Int) := by
  cases hv with
  | jnull =>
    refine ⟨110, [117, 108, 108], rfl, by decide, ?_⟩
    norm_num
    rw [decodeNull_token h]
    simp [bytesNull]
  | jtrue =>
    refine ⟨116, [114, 117, 101], rfl, by decide, ?_⟩
    norm_num
    rw [decodeTrue_token h]
    simp [bytesTrue]
  | jfalse =>
    refine ⟨102, [97, 108, 115, 101], rfl, by decide, ?_⟩
    norm_num
    rw [decodeFalse_token h]
    simp [bytesFalse]
  | @jstr b hb =>
    refine ⟨34, b ++ [34], rfl, by decide, ?_⟩
    norm_num
    have h2 : src.drop s = 34 :: (b ++ 34 :: rest) := by
      rw [h]
      simp
    rw [skipString_token h2 hb]
    simp
    omega
  | @jnum l hn =>
    obtain ⟨c, tl, rfl, hc⟩ := numTok_head hn
    refine ⟨c, tl, rfl, by simp [isSpace]; omega, ?_⟩
    rw [if_neg (by omega), if_neg (by omega), if_neg (by omega), if_neg (by omega),
      if_neg (by omega), if_neg (by omega), if_pos (by omega)]
    exact skipNumber_numTok hn hrest h
  | @jobjE w hw =>
    refine ⟨123, w ++ [125], rfl, by decide, ?_⟩
    norm_num
    have h2 : src.drop s = 123 :: (w ++ 125 :: rest) := by
      rw [h]
      simp
    rw [skipPair_token (by decide) (by decide) (by decide) (by decide) (by decide) h2
      (blank_items (Or.inl ⟨rfl, rfl⟩) hw)]
    simp
    omega
  | @jobj m hm =>
    refine ⟨123, m ++ [125], rfl, by decide, ?_⟩
    norm_num
    have h2 : src.drop s = 123 :: (m ++ 125 :: rest) := by
      rw [h]
      simp
    rw [skipPair_token (by decide) (by decide) (by decide) (by decide) (by decide) h2
      (j_items hm 123 125 (Or.inl ⟨rfl, rfl⟩))]
    simp
    omega
  | @jarrE w hw =>
    refine ⟨91, w ++ [93], rfl, by decide, ?_⟩
    norm_num
    have h2 : src.drop s = 91 :: (w ++ 93 :: rest) := by
      rw [h]
      simp
    rw [skipPair_token (by decide) (by decide) (by decide) (by decide) (by decide) h2
      (blank_items (Or.inr ⟨rfl, rfl⟩) hw)]
    simp
    omega
  | @jarr m hm =>
    refine ⟨91, m ++ [93], rfl, by decide, ?_⟩
    norm_num
    have h2 : src.drop s = 91 :: (m ++ 93 :: rest) := by
      rw [h]
      simp
    rw [skipPair_token (by decide) (by decide) (by decide) (by decide) (by decide) h2
      (j_items hm 91 93 (Or.inr ⟨rfl, rfl⟩))]
    simp
    omega

theorem drop_add_of_drop {src a b : List Nat} {pos : Nat} (h : src.drop pos = a ++ b) :
    src.drop (pos + a.length) = b := by
  have h2 : (src.drop pos).drop a.length = src.drop (pos + a.length) :=
    List.drop_drop a.length pos src
  rw [h, List.drop_left] at h2
  exact h2.symm

/-! ## Claim theorems -/

/-- C1: for every syntactically valid JSON value whose text is located at
byte offset p of the buffer, after optional leading whitespace and followed
by a token boundary (or the buffer end), SkipValue returns the non-negative
end offset e and the post-whitespace start offset s such that the slice
from s to e is exactly the textual span of the value, consuming no bytes of
any following token. -/
theorem skipValue_exact_span (pre ws v rest : List Nat) (hws : Blank ws)
    (hv : J .val v) (hrest : Terminated rest) :
    SkipValue (pre ++ (ws ++ (v ++ rest))) pre.length =
      (((pre.length + ws.length + v.length : Nat) : Int),
       ((pre.length + ws.length : Nat) : Int)) := by
  have hdrop0 : (pre ++ (ws ++ (v ++ rest))).drop pre.length = ws ++ (v ++ rest) :=
    List.drop_left pre _
  have hdropS : (pre ++ (ws ++ (v ++ rest))).drop (pre.length + ws.length) = v ++ rest :=
    drop_add_of_drop hdrop0
  obtain ⟨c, tl, hvE, hcs, hskip⟩ := jval_skip hv hrest hdropS
  have hdrop0' : (pre ++ (ws ++ (v ++ rest))).drop pre.length = ws ++ c :: (tl ++ rest) := by
    rw [hdrop0, hvE]
    simp
  have hblank : SkipBlank (pre ++ (ws ++ (v ++ rest))) pre.length =
      ((pre.length + ws.length : Nat) : Int) := skipBlank_pos hdrop0' hws hcs
  have hdropS' : (pre ++ (ws ++ (v ++ rest))).drop (pre.length + ws.length) =
      c :: (tl ++ rest) := by
    rw [hdropS, hvE]
    simp
  have hgd : (pre ++ (ws ++ (v ++ rest))).getD (pre.length + ws.length) 0 = c :=
    getD_of_drop hdropS'
  simp only [SkipValue]
  rw [hblank, if_neg (by omega)]
  simp only [Int.toNat_natCast]
  rw [hgd, hskip]

/-- Witness for C1 at the buffer " null," (byte offset 0). -/
theorem skipValue_exact_span_witness :
    SkipValue [32, 110, 117, 108, 108, 44] 0 = (5, 1) := by
  have h := skipValue_exact_span [] [32] [110, 117, 108, 108] [44]
    (fun c hc => by simp at hc; subst hc; rfl) J.jnull
    (Or.inr (Or.inr (Or.inl rfl)))
  simpa using h

/-- C2 counterexample: the buffer quote-a-b-c starts with a quote and has no
unescaped closing quote afterwards, yet skipString returns the buffer length
4 as a success offset, not the negative EOF code. -/
theorem skipString_unterminated_cex :
    ([34, 97, 98, 99] : List Nat).getD 0 0 = 34 ∧
      closesString [97, 98, 99] = false ∧
      skipString [34, 97, 98, 99] 0 = (4, -1) ∧
      (skipString [34, 97, 98, 99] 0).1 ≠ -ERR_EOF := by
  refine ⟨rfl, rfl, rfl, by decide⟩

/-- C2 (amended): skipString returns EOF when the input is too short to
hold the opening quote plus one byte, InvalidChar when the byte at pos is
not a quote, and, when no unescaped closing quote exists, either the
negative EOF code (a trailing escape stepping past the buffer end) or the
buffer length as end offset; an unterminated string never yields an
in-buffer success offset. -/
theorem skipString_error_cases (src : List Nat) (pos : Nat) :
    (src.length ≤ pos + 1 → skipString src pos = (-ERR_EOF, -1)) ∧
    (pos + 1 < src.length → src.getD pos 0 ≠ 34 →
      skipString src pos = (-ERR_INVALID_CHAR, -1)) ∧
    (pos + 1 < src.length → src.getD pos 0 = 34 →
      closesString (src.drop (pos + 1)) = false →
      (skipString src pos).1 = -ERR_EOF ∨ (skipString src pos).1 = (src.length : Int)) :=
  ⟨fun h => skipString_eof h,
   fun h1 h2 => skipString_badchar h1 h2,
   fun h1 h2 h3 => skipString_unterminated h1 h2 h3⟩

/-- Witness for C2 at the buffer quote-a-backslash (a trailing escape). -/
theorem skipString_error_cases_witness :
    (skipString [34, 97, 92] 0).1 = -ERR_EOF ∨
      (skipString [34, 97, 92] 0).1 = (([34, 97, 92] : List Nat).length : Int) :=
  (skipString_error_cases [34, 97, 92] 0).2.2 (by decide) (by decide) (by decide)

/-- C3: quote on the empty input string.  The Go source appends the opening
quote, appends a second quote in the empty-input special case, skips the
escaping loop, and then still appends the final closing quote, because the
special case has no early return: three bytes are appended, not two. -/
theorem quote_empty_three_quotes :
    quote [] [] = [34, 34, 34] ∧ quote [120] [] = [120, 34, 34, 34] := by
  constructor <;> rfl

theorem digitsVal_aux :
    ∀ (ds : List Nat), (∀ c ∈ ds, isDigit c = true) → ∀ (acc : Int), 0 ≤ acc →
    0 ≤ ds.foldl (fun a c => a * 10 + ((c : Int) - 48)) acc := by
  intro ds
  induction ds with
  | nil =>
    intro _ acc hacc
    simpa using hacc
  | cons c t ih =>
    intro h acc hacc
    show 0 ≤ t.foldl (fun a c => a * 10 + ((c : Int) - 48)) (acc * 10 + ((c : Int) - 48))
    refine ih (fun x hx => h x (by simp [hx])) _ ?_
    have hc := isDigit_eq.mp (h c (by simp))
    have hc48 : (48 : Int) ≤ (c : Int) := by exact_mod_cast hc.1
    omega

theorem digitsVal_nonneg {ds : List Nat} (h : ∀ c ∈ ds, isDigit c = true) :
    0 ≤ digitsVal ds := digitsVal_aux ds h 0 le_rfl

theorem parseInt64_all_digits {ds : List Nat} (hds : Digits1 ds) :
    parseInt64 ds =
      (if digitsVal ds < -(2 ^ 63) then (.rangeErr, -(2 ^ 63))
       else if 2 ^ 63 - 1 < digitsVal ds then (.rangeErr, 2 ^ 63 - 1)
       else (.ok, digitsVal ds)) := by
  obtain ⟨hne, hdig⟩ := hds
  obtain ⟨a, t, rfl⟩ : ∃ a t, ds = a :: t := by
    cases ds with
    | nil => exact absurd rfl hne
    | cons a t => exact ⟨a, t, rfl⟩
  have ha := isDigit_eq.mp (hdig a (by simp))
  have hall : (a :: t).all isDigit = true := by
    simp only [List.all_eq_true]
    exact hdig
  have hor : ¬(a = 45 ∨ a = 43) := by omega
  have hguard : ¬((a :: t : List Nat) = [] ∨ ¬((a :: t).all isDigit = true)) := by
    simp [hall]
  have hnegf : decide (a = 45) = false := decide_eq_false (by omega)
  simp only [parseInt64, List.headD_cons]
  rw [if_neg hor, if_neg hguard]
  simp only [hnegf, Bool.false_eq_true, if_false]

theorem parseInt64_neg_digits {ds : List Nat} (hds : Digits1 ds) :
    parseInt64 (45 :: ds) =
      (if -digitsVal ds < -(2 ^ 63) then (.rangeErr, -(2 ^ 63))
       else if 2 ^ 63 - 1 < -digitsVal ds then (.rangeErr, 2 ^ 63 - 1)
       else (.ok, -digitsVal ds)) := by
  obtain ⟨hne, hdig⟩ := hds
  have hall : ds.all isDigit = true := by
    simp only [List.all_eq_true]
    exact hdig
  have hguard : ¬(ds = [] ∨ ¬(ds.all isDigit = true)) := by simp [hall, hne]
  simp only [parseInt64, List.headD_cons, List.tail_cons, true_or, if_true, decide_True]
  rw [if_neg hguard]

/-- C4: decodeInt64 on a digit run whose value is outside the signed
64-bit range returns the non-negative end offset of the run together with
value 0 and the range-overflow indicator, not a negative scan-failure code
(the byte after the run, when present, is neither a digit nor one of dot,
e, E, so the integer parse is reached as in the spec's Otherwise clause). -/
theorem decodeInt64_overflow (src : List Nat) (pos : Nat) (sg ds rest : List Nat)
    (hsg : SignOpt sg) (hds : Digits1 ds)
    (hrest : rest = [] ∨ (isDigit (rest.headD 0) = false ∧ rest.headD 0 ≠ 46 ∧
      rest.headD 0 ≠ 101 ∧ rest.headD 0 ≠ 69))
    (h : src.drop pos = sg ++ ds ++ rest)
    (hovf : (if sg = [45] then -digitsVal ds else digitsVal ds) < -(2 ^ 63) ∨
      2 ^ 63 - 1 < (if sg = [45] then -digitsVal ds else digitsVal ds)) :
    decodeInt64 src pos = (((pos + sg.length + ds.length : Nat) : Int), 0, .rangeErr) := by
  obtain ⟨hne, hdig⟩ := hds
  have hnn : 0 ≤ digitsVal ds := digitsVal_nonneg hdig
  obtain ⟨a, dst, rfl⟩ : ∃ a t, ds = a :: t := by
    cases ds with
    | nil => exact absurd rfl hne
    | cons a t => exact ⟨a, t, rfl⟩
  have hda := isDigit_eq.mp (hdig a (by simp))
  have htw : ((a :: dst) ++ rest).takeWhile isDigit = a :: dst := by
    refine takeWhile_append_head hdig ?_
    rcases hrest with rfl | ⟨hh, _, _, _⟩
    · exact Or.inl rfl
    · exact Or.inr hh
  rcases hsg with rfl | rfl
  · simp only [List.nil_append] at h hovf
    simp only [if_neg (by decide : ¬(([] : List Nat) = [45]))] at hovf
    have hbig : 2 ^ 63 - 1 < digitsVal (a :: dst) := by
      rcases hovf with h1 | h1
      · exact absurd h1 (by omega)
      · exact h1
    have hcons : src.drop pos = a :: (dst ++ rest) := by
      rw [h]
      simp
    have hgd : src.getD pos 0 = a := getD_of_drop hcons
    have hlen : src.length = pos + ((a :: dst) ++ rest).length := length_of_drop h (by simp)
    simp only [List.length_append, List.length_cons, List.length_nil] at hlen
    have hfmt : ¬(pos + (a :: dst).length < src.length ∧
        (src.getD (pos + (a :: dst).length) 0 = 46 ∨
         src.getD (pos + (a :: dst).length) 0 = 101 ∨
         src.getD (pos + (a :: dst).length) 0 = 69)) := by
      rcases hrest with rfl | ⟨_, h46, h101, h69⟩
      · simp only [List.length_cons, List.length_nil] at hlen ⊢
        intro hcon
        omega
      · cases rest with
        | nil =>
          simp only [List.length_cons, List.length_nil] at hlen ⊢
          intro hcon
          omega
        | cons c t =>
          have hgd2 : src.getD (pos + (a :: dst).length) 0 = c :=
            getD_of_drop (drop_add_of_drop h)
          simp only [List.headD_cons] at h46 h101 h69
          rw [hgd2]
          intro hcon
          exact absurd hcon.2 (by tauto)
    have ha45 : ¬(a = 45) := by omega
    have hpr : parseInt64 (a :: dst) = (.rangeErr, 2 ^ 63 - 1) := by
      rw [parseInt64_all_digits ⟨hne, hdig⟩, if_neg (by omega), if_pos hbig]
    simp only [decodeInt64]
    rw [if_neg (by omega), hgd, if_neg ha45, if_neg (by omega), h, htw,
      if_neg hfmt, show pos + (a :: dst).length - pos = (a :: dst).length from by omega,
      List.take_left, hpr]
    simp only [List.length_cons, List.length_nil]
    norm_num
  · simp only [eq_self_iff_true, if_true] at hovf
    have hbig : -digitsVal (a :: dst) < -(2 ^ 63) := by
      rcases hovf with h1 | h1
      · exact h1
      · exact absurd h1 (by omega)
    have hcons : src.drop pos = 45 :: ((a :: dst) ++ rest) := by
      rw [h]
      simp
    have hgd : src.getD pos 0 = 45 := getD_of_drop hcons
    have hdrop1 : src.drop (pos + 1) = (a :: dst) ++ rest := drop_succ_of_drop hcons
    have hlen : src.length = pos + (45 :: ((a :: dst) ++ rest)).length :=
      length_of_drop hcons (by simp)
    simp only [List.length_append, List.length_cons, List.length_nil] at hlen
    have hfmt : ¬(pos + 1 + (a :: dst).length < src.length ∧
        (src.getD (pos + 1 + (a :: dst).length) 0 = 46 ∨
         src.getD (pos + 1 + (a :: dst).length) 0 = 101 ∨
         src.getD (pos + 1 + (a :: dst).length) 0 = 69)) := by
      rcases hrest with rfl | ⟨_, h46, h101, h69⟩
      · simp only [List.length_cons, List.length_nil] at hlen ⊢
        intro hcon
        omega
      · cases rest with
        | nil =>
          simp only [List.length_cons, List.length_nil] at hlen ⊢
          intro hcon
          omega
        | cons c t =>
          have hgd2 : src.getD (pos + 1 + (a :: dst).length) 0 = c :=
            getD_of_drop (drop_add_of_drop hdrop1)
          simp only [List.headD_cons] at h46 h101 h69
          rw [hgd2]
          intro hcon
          exact absurd hcon.2 (by tauto)
    have htk : (src.drop pos).take (pos + 1 + (a :: dst).length - pos) =
        45 :: (a :: dst) := by
      rw [hcons, show pos + 1 + (a :: dst).length - pos = (45 :: (a :: dst)).length from by
        simp only [List.length_cons]; omega,
        show 45 :: ((a :: dst) ++ rest) = (45 :: (a :: dst)) ++ rest from by simp,
        List.take_left]
    have hpr : parseInt64 (45 :: (a :: dst)) = (.rangeErr, -(2 ^ 63)) := by
      rw [parseInt64_neg_digits ⟨hne, hdig⟩, if_pos hbig]
    simp only [decodeInt64]
    rw [if_neg (by omega), hgd, if_pos rfl, if_neg (by omega), hdrop1, htw,
      if_neg hfmt, htk, hpr]
    simp only [List.length_cons, List.length_nil]
    norm_num

/-- Witness for C4 at the twenty-nines buffer. -/
theorem decodeInt64_overflow_witness :
    decodeInt64 [57, 57, 57, 57, 57, 57, 57, 57, 57, 57,
      57, 57, 57, 57, 57, 57, 57, 57, 57, 57] 0 = (20, 0, .rangeErr) := by
  have h := decodeInt64_overflow [57, 57, 57, 57, 57, 57, 57, 57, 57, 57,
      57, 57, 57, 57, 57, 57, 57, 57, 57, 57] 0 []
    [57, 57, 57, 57, 57, 57, 57, 57, 57, 57, 57, 57, 57, 57, 57, 57, 57, 57, 57, 57] []
    (Or.inl rfl) ⟨by decide, by decide⟩ (Or.inl rfl) rfl (by decide)
  simpa using h

/-- C6: skipPair ignores delimiter bytes inside quoted strings: on the
object whose single member value is a string containing a closing brace it
returns the offset just past the final brace, and whenever the quote-aware
nesting counter never reaches 0 by buffer end it returns InvalidChar. -/
theorem skipPair_quote_aware :
    skipPair [123, 34, 97, 34, 58, 34, 125, 34, 125] 0 123 125 = 9 ∧
    (∀ (src : List Nat) (pos l r : Nat), pos + 1 < src.length →
      src.getD pos 0 = l → pairCloses l r (src.drop (pos + 1)) 1 false = false →
      skipPair src pos l r = -ERR_INVALID_CHAR) :=
  ⟨by decide, fun _ _ _ _ h1 h2 h3 => skipPair_noclose h1 h2 h3⟩

/-- Witness for C6 at an unbalanced object fragment. -/
theorem skipPair_quote_aware_witness :
    skipPair [123, 34] 0 123 125 = -ERR_INVALID_CHAR :=
  skipPair_quote_aware.2 [123, 34] 0 123 125 (by decide) (by decide) (by decide)

/-- C7: skipNumber rejects a second decimal point with InvalidChar and an
exponent marker that is the last input byte with EOF, two distinct error
codes. -/
theorem skipNumber_error_kinds :
    skipNumber [49, 46, 50, 46, 51] 0 = -ERR_INVALID_CHAR ∧
    skipNumber [49, 101] 0 = -ERR_EOF ∧
    ERR_INVALID_CHAR ≠ ERR_EOF := by
  refine ⟨by decide, by decide, by decide⟩

/-! ## Plus-prefixed numbers -/

theorem skipNumber_plus {src t : List Nat} {pos : Nat} (h : src.drop pos = 43 :: t) :
    skipNumber src pos = -ERR_INVALID_CHAR := by
  have hgd : src.getD pos 0 = 43 := getD_of_drop h
  have hlt : pos < src.length := pos_lt_of_drop h
  have h43 : ¬((43 : Nat) = 45) := by decide
  simp only [skipNumber]
  rw [if_neg (by omega), hgd, if_neg h43, h, skipNumLoop_cons]
  norm_num [isDigit, ERR_INVALID_CHAR]

theorem decodeInt64_plus {src t : List Nat} {pos : Nat} (h : src.drop pos = 43 :: t) :
    decodeInt64 src pos = (-ERR_INVALID_CHAR, 0, .syntaxErr) := by
  have hgd : src.getD pos 0 = 43 := getD_of_drop h
  have hlt : pos < src.length := pos_lt_of_drop h
  have h43 : ¬((43 : Nat) = 45) := by decide
  have htw : (43 :: t).takeWhile isDigit = [] := by
    rw [List.takeWhile_cons_of_neg]
    simp [isDigit]
  have hpr : parseInt64 [] = (.syntaxErr, 0) := by
    simp [parseInt64]
  simp only [decodeInt64]
  rw [if_neg (by omega), hgd, if_neg h43, if_neg (by omega), h, htw]
  simp only [List.length_nil, Nat.add_zero, Nat.sub_self, List.take_zero]
  rw [if_neg (by
    intro hcon
    rw [hgd] at hcon
    rcases hcon.2 with h1 | h1 | h1 <;> omega), hpr,
    if_neg (by decide), if_pos (by decide)]

/-- C9: whenever the first non-blank byte is a plus sign, Peek classifies
the next token as Number, yet SkipValue and DecodeValue both return the
InvalidChar error code: skipNumber requires a digit first and decodeInt64
parses an empty digit span, so a plus-prefixed number is never accepted. -/
theorem plus_number_never_accepted (src : List Nat) (pos : Nat) (ws t : List Nat)
    (hws : Blank ws) (h : src.drop pos = ws ++ 43 :: t) :
    Peek src pos = (((pos + ws.length : Nat) : Int), .Number) ∧
    SkipValue src pos = (-ERR_INVALID_CHAR, ((pos + ws.length : Nat) : Int)) ∧
    DecodeValue src pos = (-ERR_INVALID_CHAR, { Vt := -ERR_INVALID_CHAR }) := by
  have hblank : SkipBlank src pos = ((pos + ws.length : Nat) : Int) :=
    skipBlank_pos h hws (by decide)
  have hdropS : src.drop (pos + ws.length) = 43 :: t := drop_add_of_drop h
  have hgd : src.getD (pos + ws.length) 0 = 43 := getD_of_drop hdropS
  refine ⟨?_, ?_, ?_⟩
  · simp only [Peek]
    rw [hblank, if_neg (by omega)]
    simp only [Int.toNat_natCast, hgd]
    norm_num
  · simp only [SkipValue]
    rw [hblank, if_neg (by omega)]
    simp only [Int.toNat_natCast, hgd]
    rw [skipNumber_plus hdropS]
    norm_num
  · simp only [DecodeValue]
    rw [hblank, if_neg (by omega)]
    simp only [Int.toNat_natCast, hgd]
    rw [decodeInt64_plus hdropS]
    norm_num [ERR_INVALID_CHAR, ERR_INVALID_NUMBER_FMT]

/-- Witness for C9 at the buffer plus-one. -/
theorem plus_number_never_accepted_witness :
    Peek [43, 49] 0 = (0, .Number) ∧ SkipValue [43, 49] 0 = (-ERR_INVALID_CHAR, 0) ∧
      DecodeValue [43, 49] 0 = (-ERR_INVALID_CHAR, { Vt := -ERR_INVALID_CHAR }) := by
  have h := plus_number_never_accepted [43, 49] 0 [] [49] (fun c hc => by simp at hc) rfl
  simpa using h

/-- C10: when the byte at the post-whitespace position is an opening brace
(resp. bracket), DecodeValue returns the offset just past that single byte
with the Object (resp. Array) tag and performs no balance or content
validation. -/
theorem decodeValue_shallow_delimiters (src : List Nat) (pos : Nat) (ws t : List Nat)
    (hws : Blank ws) :
    (src.drop pos = ws ++ 123 :: t →
      DecodeValue src pos = (((pos + ws.length + 1 : Nat) : Int), { Vt := V_OBJECT })) ∧
    (src.drop pos = ws ++ 91 :: t →
      DecodeValue src pos = (((pos + ws.length + 1 : Nat) : Int), { Vt := V_ARRAY })) := by
  constructor
  · intro h
    have hblank : SkipBlank src pos = ((pos + ws.length : Nat) : Int) :=
      skipBlank_pos h hws (by decide)
    have hgd : src.getD (pos + ws.length) 0 = 123 := getD_of_drop (drop_add_of_drop h)
    simp only [DecodeValue]
    rw [hblank, if_neg (by omega)]
    simp only [Int.toNat_natCast, hgd]
    norm_num
  · intro h
    have hblank : SkipBlank src pos = ((pos + ws.length : Nat) : Int) :=
      skipBlank_pos h hws (by decide)
    have hgd : src.getD (pos + ws.length) 0 = 91 := getD_of_drop (drop_add_of_drop h)
    simp only [DecodeValue]
    rw [hblank, if_neg (by omega)]
    simp only [Int.toNat_natCast, hgd]
    norm_num

/-- Witness for C10: a lone opening brace as the last byte of the buffer
still succeeds with the Object tag. -/
theorem decodeValue_shallow_delimiters_witness :
    DecodeValue [123] 0 = (1, { Vt := V_OBJECT }) := by
  have h := (decodeValue_shallow_delimiters [123] 0 [] [] (fun c hc => by simp at hc)).1 rfl
  simpa using h

/-- C8: Peek skips leading whitespace, returns the post-whitespace
position without consuming the classified byte, classifies that byte by
the fixed lookup table (with a negative InvalidChar offset for bytes
outside the table), and returns a negative EOF code when the input ends
while skipping whitespace. -/
theorem peek_classification :
    (∀ (src ws t : List Nat) (pos c : Nat), Blank ws → src.drop pos = ws ++ c :: t →
      isSpace c = false →
      Peek src pos = ((if peekClass c = .Invalid then -ERR_INVALID_CHAR
        else ((pos + ws.length : Nat) : Int)), peekClass c)) ∧
    (∀ (src : List Nat) (pos : Nat), Blank (src.drop pos) →
      Peek src pos = (-ERR_EOF, .Invalid)) := by
  constructor
  · intro src ws t pos c hws h hcs
    have hblank : SkipBlank src pos = ((pos + ws.length : Nat) : Int) :=
      skipBlank_pos h hws hcs
    have hgd : src.getD (pos + ws.length) 0 = c := getD_of_drop (drop_add_of_drop h)
    simp only [Peek, peekClass]
    rw [hblank, if_neg (by omega)]
    simp only [Int.toNat_natCast, hgd]
    by_cases h1 : c = 123
    · simp [h1]
    by_cases h2 : c = 91
    · simp [h1, h2]
    by_cases h3 : c = 44
    · simp [h1, h2, h3]
    by_cases h4 : c = 58
    · simp [h1, h2, h3, h4]
    by_cases h5 : c = 93
    · simp [h1, h2, h3, h4, h5]
    by_cases h6 : c = 125
    · simp [h1, h2, h3, h4, h5, h6]
    by_cases h7 : c = 110
    · simp [h1, h2, h3, h4, h5, h6, h7]
    by_cases h8 : c = 34
    · simp [h1, h2, h3, h4, h5, h6, h7, h8]
    by_cases h9 : c = 116
    · simp [h1, h2, h3, h4, h5, h6, h7, h8, h9]
    by_cases h10 : c = 102
    · simp [h1, h2, h3, h4, h5, h6, h7, h8, h9, h10]
    by_cases h11 : c = 45 ∨ c = 43 ∨ (48 ≤ c ∧ c ≤ 57)
    · have h12 : (48 ≤ c ∧ c ≤ 57) ∨ c = 43 ∨ c = 45 := by tauto
      simp [h1, h2, h3, h4, h5, h6, h7, h8, h9, h10, h11, h12]
    · have h12 : ¬((48 ≤ c ∧ c ≤ 57) ∨ c = 43 ∨ c = 45) := by tauto
      simp [h1, h2, h3, h4, h5, h6, h7, h8, h9, h10, h11, h12]
  · intro src pos h
    simp only [Peek]
    rw [skipBlank_eof h]
    norm_num [ERR_EOF]

/-- Witness for C8 at a bracket preceded by spaces, newline and tab. -/
theorem peek_classification_witness :
    Peek [32, 32, 32, 10, 9, 91, 49, 44, 50, 93] 0 = (5, .Arr) := by
  have h := peek_classification.1 [32, 32, 32, 10, 9, 91, 49, 44, 50, 93]
    [32, 32, 32, 10, 9] [49, 44, 50, 93] 0 91
    (fun c hc => by fin_cases hc <;> rfl) rfl rfl
  simpa [peekClass] using h

/-! ## Integer-to-float fallback -/

theorem decodeInt64_fmt (src : List Nat) (pos : Nat) (sg ds rest : List Nat) (c : Nat)
    (hsg : SignOpt sg) (hds : ∀ d ∈ ds, isDigit d = true)
    (hc : c = 46 ∨ c = 101 ∨ c = 69) (h : src.drop pos = sg ++ ds ++ c :: rest) :
    decodeInt64 src pos = (-ERR_INVALID_NUMBER_FMT, 0, .ok) := by
  have hcd : isDigit c = false := by rcases hc with rfl | rfl | rfl <;> decide
  have htw : (ds ++ c :: rest).takeWhile isDigit = ds :=
    takeWhile_append_head hds (Or.inr (by simpa using hcd))
  rcases hsg with rfl | rfl
  · simp only [List.nil_append] at h
    have hlen : src.length = pos + (ds ++ c :: rest).length := length_of_drop h (by simp)
    simp only [List.length_append, List.length_cons] at hlen
    have hgd0 : src.getD pos 0 ≠ 45 := by
      cases ds with
      | nil =>
        have hcons0 : src.drop pos = c :: rest := by simpa using h
        have hx : src.getD pos 0 = c := getD_of_drop hcons0
        rcases hc with rfl | rfl | rfl <;> omega
      | cons a t =>
        have hcons1 : src.drop pos = a :: (t ++ c :: rest) := by
          rw [h]
          simp
        have hx : src.getD pos 0 = a := getD_of_drop hcons1
        have ha := isDigit_eq.mp (hds a (by simp))
        omega
    have hgdr : src.getD (pos + ds.length) 0 = c := getD_of_drop (drop_add_of_drop h)
    simp only [decodeInt64]
    rw [if_neg (by omega), if_neg hgd0, if_neg (by omega), h, htw,
      if_pos ⟨by omega, by rw [hgdr]; tauto⟩]
  · have hcons : src.drop pos = 45 :: (ds ++ c :: rest) := by
      rw [h]
      simp
    have hgd : src.getD pos 0 = 45 := getD_of_drop hcons
    have hdrop1 : src.drop (pos + 1) = ds ++ c :: rest := drop_succ_of_drop hcons
    have hlen : src.length = pos + (45 :: (ds ++ c :: rest)).length :=
      length_of_drop hcons (by simp)
    simp only [List.length_append, List.length_cons] at hlen
    have hgdr : src.getD (pos + 1 + ds.length) 0 = c :=
      getD_of_drop (drop_add_of_drop hdrop1)
    simp only [decodeInt64]
    rw [if_neg (by omega), hgd, if_pos rfl, if_neg (by omega), hdrop1, htw,
      if_pos ⟨by omega, by rw [hgdr]; tauto⟩]

theorem decodeValue_number_branch (src : List Nat) (pos p : Nat)
    (hb : SkipBlank src pos = ((p : Nat) : Int))
    (hc : src.getD p 0 = 45 ∨ src.getD p 0 = 43 ∨
      (48 ≤ src.getD p 0 ∧ src.getD p 0 ≤ 57)) :
    DecodeValue src pos =
      (if 0 ≤ (decodeInt64 src p).1 then
        ((decodeInt64 src p).1,
          { Vt := V_INTEGER, Iv := (decodeInt64 src p).2.1, Ep := (p : Int) })
      else if (decodeInt64 src p).1 ≠ -ERR_INVALID_NUMBER_FMT then
        ((decodeInt64 src p).1, { Vt := (decodeInt64 src p).1 })
      else if 0 ≤ (decodeFloat64 src p).1 then
        ((decodeFloat64 src p).1,
          { Vt := V_DOUBLE, Dv := (decodeFloat64 src p).2.1, Ep := (p : Int) })
      else ((decodeFloat64 src p).1, { Vt := (decodeFloat64 src p).1 })) := by
  have h110 : src.getD p 0 ≠ 110 := by rcases hc with h | h | h <;> omega
  have h34 : src.getD p 0 ≠ 34 := by rcases hc with h | h | h <;> omega
  have h123 : src.getD p 0 ≠ 123 := by rcases hc with h | h | h <;> omega
  have h91 : src.getD p 0 ≠ 91 := by rcases hc with h | h | h <;> omega
  have h116 : src.getD p 0 ≠ 116 := by rcases hc with h | h | h <;> omega
  have h102 : src.getD p 0 ≠ 102 := by rcases hc with h | h | h <;> omega
  simp only [DecodeValue]
  rw [hb, if_neg (by omega)]
  simp only [Int.toNat_natCast]
  rw [if_neg h110, if_neg h34, if_neg h123, if_neg h91, if_neg h116, if_neg h102,
    if_pos hc]

/-- C5: decodeInt64 signals InvalidNumberFormat (without consuming) exactly
when the byte following its maximal digit run is a dot or an exponent
marker; DecodeValue retries the same position with decodeFloat64 when and
only when it receives that signal; consequently DecodeValue yields an
integer-tagged state on 42, a double-tagged state with value 3.14 on 3.14,
and the literal tags on true, null, false. -/
theorem decodeValue_int_float_fallback :
    (∀ (src : List Nat) (pos : Nat) (sg ds rest : List Nat) (c : Nat), SignOpt sg →
      (∀ d ∈ ds, isDigit d = true) → (c = 46 ∨ c = 101 ∨ c = 69) →
      src.drop pos = sg ++ ds ++ c :: rest →
      decodeInt64 src pos = (-ERR_INVALID_NUMBER_FMT, 0, .ok)) ∧
    (∀ (src : List Nat) (pos p : Nat), SkipBlank src pos = ((p : Nat) : Int) →
      (src.getD p 0 = 45 ∨ src.getD p 0 = 43 ∨
        (48 ≤ src.getD p 0 ∧ src.getD p 0 ≤ 57)) →
      DecodeValue src pos =
        (if 0 ≤ (decodeInt64 src p).1 then
          ((decodeInt64 src p).1,
            { Vt := V_INTEGER, Iv := (decodeInt64 src p).2.1, Ep := (p : Int) })
        else if (decodeInt64 src p).1 ≠ -ERR_INVALID_NUMBER_FMT then
          ((decodeInt64 src p).1, { Vt := (decodeInt64 src p).1 })
        else if 0 ≤ (decodeFloat64 src p).1 then
          ((decodeFloat64 src p).1,
            { Vt := V_DOUBLE, Dv := (decodeFloat64 src p).2.1, Ep := (p : Int) })
        else ((decodeFloat64 src p).1, { Vt := (decodeFloat64 src p).1 }))) ∧
    DecodeValue [52, 50] 0 = (2, { Vt := V_INTEGER, Iv := 42 }) ∧
    DecodeValue [51, 46, 49, 52] 0 = (4, { Vt := V_DOUBLE, Dv := 157/50 }) ∧
    DecodeValue [116, 114, 117, 101] 0 = (4, { Vt := V_TRUE }) ∧
    DecodeValue [110, 117, 108, 108] 0 = (4, { Vt := V_NULL }) ∧
    DecodeValue [102, 97, 108, 115, 101] 0 = (5, { Vt := V_FALSE }) :=
  ⟨fun src pos sg ds rest c hsg hds hc h => decodeInt64_fmt src pos sg ds rest c hsg hds hc h,
   fun src pos p hb hc => decodeValue_number_branch src pos p hb hc,
   by decide,
   by
     norm_num [DecodeValue, SkipBlank, skipBlankLoop, decodeInt64, parseInt64,
       decodeFloat64, parseFloat64, digitsVal, isDigit, isNumberChars, isSpace,
       ERR_INVALID_NUMBER_FMT, ERR_EOF, ERR_INVALID_CHAR, V_DOUBLE, V_INTEGER,
       List.takeWhile]
     simp,
   by decide, by decide, by decide⟩

/-- Witness for C5: the digit run of 3.14 is followed by a dot, so
decodeInt64 reports the float-retry signal. -/
theorem decodeValue_int_float_fallback_witness :
    decodeInt64 [51, 46, 49, 52] 0 = (-ERR_INVALID_NUMBER_FMT, 0, .ok) :=
  decodeValue_int_float_fallback.1 [51, 46, 49, 52] 0 [] [51] [49, 52] 46
    (Or.inl rfl) (by decide) (Or.inl rfl) rfl

end DynJson
